import Mathlib

/-!
# vrpnbridge: wire record, streaming server and freshness check

A shallow embedding of `src/vrpnbridge/main.cpp`.

Floating point.  The C++ `float` and `double` are IEEE 754 binary32 and
binary64.  A value is an `FP`: a rational number, an infinity or a NaN; every
operation computes the exact result and rounds it to the nearest value of its
format, ties to even, with gradual underflow and overflow to infinity
(`Format.round`).  An expression is evaluated in the format of its C++ type
(`FLT_EVAL_METHOD` 0): `float * float` rounds to binary32, an operation with a
`double` operand rounds to binary64.  Widening a `float` to `double` is exact
and is not written.  The sign of a zero is not tracked; the only division of
the program, `1.0 / sqrt(sum)`, has a sum of squares under the root, which is
never below `+0`.

Machine integers are `Nat`/`Int` with explicit reduction modulo `2^32`
(`unsigned`, `unsigned long` and `long` are 32 bits wide on the Windows
targets this Winsock program builds for).
-/

namespace VrpnBridge

/-! ## IEEE 754 arithmetic -/

/-- A floating-point value: a finite number, an infinity with its sign, or a
NaN. -/
inductive FP where
  | fin (q : ℚ)
  | inf (neg : Bool)
  | nan
deriving DecidableEq

/-- A binary format: precision in bits and the exponent range of its normal
numbers. -/
structure Format where
  prec : Nat
  emin : Int
  emax : Int

/-- The format of `float`. -/
def binary32 : Format := ⟨24, -126, 127⟩

/-- The format of `double`. -/
def binary64 : Format := ⟨53, -1022, 1023⟩

/-- The integer nearest to `z`, the even one of the two when `z` is half way
between them. -/
def roundHalfEven (z : ℚ) : ℤ :=
  let f := ⌊z⌋
  if z - f < 1 / 2 then f
  else if 1 / 2 < z - f then f + 1
  else if f % 2 = 0 then f else f + 1

/-- The spacing of the values of a format around `x`: `2 ^ (e - (p - 1))` for
the exponent `e` of `x`, not below `emin` (subnormal numbers). -/
def Format.ulp (fmt : Format) (x : ℚ) : ℚ :=
  2 ^ (max (Int.log 2 |x|) fmt.emin - (fmt.prec - 1))

/-- Rounding to nearest, ties to even: the multiple of the spacing nearest to
`x`, or an infinity when that is beyond the largest finite number. -/
def Format.round (fmt : Format) (x : ℚ) : FP :=
  if x = 0 then .fin 0
  else
    let y := roundHalfEven (x / fmt.ulp x) * fmt.ulp x
    if 2 ^ (fmt.emax + 1) ≤ |y| then .inf (decide (x < 0)) else .fin y

/-- Addition in a format. -/
def FP.add (fmt : Format) : FP → FP → FP
  | .fin a, .fin b => fmt.round (a + b)
  | .fin _, .inf s => .inf s
  | .inf s, .fin _ => .inf s
  | .inf s, .inf t => if s = t then .inf s else .nan
  | _, _ => .nan

/-- Multiplication in a format. -/
def FP.mul (fmt : Format) : FP → FP → FP
  | .fin a, .fin b => fmt.round (a * b)
  | .fin a, .inf s => if a = 0 then .nan else .inf (xor (decide (a < 0)) s)
  | .inf s, .fin a => if a = 0 then .nan else .inf (xor s (decide (a < 0)))
  | .inf s, .inf t => .inf (xor s t)
  | _, _ => .nan

/-- Division in a format; a zero divisor counts as `+0`. -/
def FP.div (fmt : Format) : FP → FP → FP
  | .fin a, .fin b =>
    if b = 0 then (if a = 0 then .nan else .inf (decide (a < 0)))
    else fmt.round (a / b)
  | .fin _, .inf _ => .fin 0
  | .inf s, .fin b => .inf (xor s (decide (b < 0)))
  | .inf _, .inf _ => .nan
  | _, _ => .nan

/-- Conversion to a format (`static_cast<float>` of a `double`). -/
def FP.convert (fmt : Format) : FP → FP
  | .fin a => fmt.round a
  | v => v

/-- A rational number within `2 ^ -64` (relative) of the square root of
`x > 0`: the integer square root of `x` scaled by a power of 4 to at least
`2 ^ 128`, with a last bit that tells whether the root was exact. -/
def sqrtApprox (x : ℚ) : ℚ :=
  let k : ℤ := 64 - Int.log 2 x / 2
  let y : ℚ := x * 4 ^ k
  let m : ℕ := Nat.sqrt ⌊y⌋₊
  ((2 * m + (if (m : ℚ) * m = y then 0 else 1) : ℕ) : ℚ) / 2 ^ (k + 1)

/-- The `sqrt` of `<math.h>` on a `double`, correctly rounded. -/
def FP.sqrt : FP → FP
  | .fin x =>
    if x < 0 then .nan else if x = 0 then .fin 0 else binary64.round (sqrtApprox x)
  | .inf false => .inf false
  | .inf true => .nan
  | .nan => .nan

/-- The conversion `(float)n` of a `long`. -/
def longToFloat (n : Int) : FP := binary32.round n

/-- The conversion `(float)n` of an `unsigned long`. -/
def ulongToFloat (n : Nat) : FP := binary32.round n

/-- The literal `1.0e-6f`. -/
def oneMillionthF : FP := binary32.round (1 / 1000000)

/-! ## Externals the source relies on -/

/-- The `struct timeval` of Winsock: two `long` fields. -/
structure Timeval where
  tv_sec : Int
  tv_usec : Int
deriving DecidableEq

/-- The `vrpn_TRACKERCB` of `vrpn_Tracker.h`, restricted to the fields the
program reads: `msg_time`, `sensor`, `pos[3]` and `quat[4]` (both arrays of
`vrpn_float64`). -/
structure TrackerCB where
  msg_time : Timeval
  sensor : Int
  pos : Fin 3 → FP
  quat : Fin 4 → FP

/-! ## TrackerData (lines 47-115) -/

/-- The record `struct TrackerData` sent to the client: `float timeStamp`,
`int sensor`, `float position[3]`, `float rotation[4]`. -/
structure TrackerData where
  timeStamp : FP
  sensor : Int
  position : Fin 3 → FP
  rotation : Fin 4 → FP

/-- The loop `for (unsigned i=0; i<4; i++) sum += quat[i] * quat[i];` started
from `double sum = 0.0`.  The products are formed in `fmt`: binary64 where
`quat` holds `double`s (first overload), binary32 where it holds `float`s
(second overload); the sum is a `double`. -/
def sumSquares (fmt : Format) (quat : Fin 4 → FP) : FP :=
  ([0, 1, 2, 3] : List (Fin 4)).foldl
    (fun sum i => FP.add binary64 sum (FP.mul fmt (quat i) (quat i))) (.fin 0)

/-- The default constructor `TrackerData()`: `timeStamp(0.0f)`, `sensor(0)`.
The arrays are left uninitialised by the source; they are zero here. -/
def TrackerData.new : TrackerData :=
  { timeStamp := .fin 0, sensor := 0, position := fun _ => .fin 0,
    rotation := fun _ => .fin 0 }

/-- The overload `TrackerData::set(const vrpn_TRACKERCB&)`, lines 62-86. -/
def TrackerData.set (self : TrackerData) (tracker : TrackerCB) : TrackerData :=
  -- time in seconds
  let timeStamp := FP.add binary32 (longToFloat tracker.msg_time.tv_sec)
    (FP.mul binary32 (longToFloat tracker.msg_time.tv_usec) oneMillionthF)
  -- calculate scale factor to normalise the quaternion
  let sum := sumSquares binary64 tracker.quat
  let scale := FP.div binary64 (.fin 1) (FP.sqrt sum)
  { self with
    timeStamp := timeStamp
    sensor := tracker.sensor
    position := fun i => FP.convert binary32 (tracker.pos i)
    rotation := fun i => FP.convert binary32 (FP.mul binary64 (tracker.quat i) scale) }

/-- The overload `TrackerData::set(float pX, ..., float q3, unsigned long
tStamp, int sensorID)`, lines 89-113. -/
def TrackerData.setValues (self : TrackerData) (pX pY pZ q0 q1 q2 q3 : FP)
    (tStamp : Nat) (sensorID : Int) : TrackerData :=
  let timeStamp := ulongToFloat tStamp
  let quat : Fin 4 → FP := ![q0, q1, q2, q3]
  let sum := sumSquares binary32 quat
  let scale := FP.div binary64 (.fin 1) (FP.sqrt sum)
  { self with
    timeStamp := timeStamp
    sensor := sensorID
    position := ![pX, pY, pZ]
    rotation := fun i => FP.convert binary32 (FP.mul binary64 (quat i) scale) }

/-- Scalar types of the record's fields. -/
inductive CType where
  | float
  | int
deriving DecidableEq

/-- Size in bytes of a scalar type (`float` and `int` are both 4 bytes). -/
def CType.sizeof : CType → Nat
  | .float => 4
  | .int => 4

/-- The members of `struct TrackerData` in declaration order, each with its
array length: `float timeStamp; int sensor; float position[3]; float
rotation[4];`. -/
def TrackerData.members : List (CType × Nat) :=
  [(.float, 1), (.int, 1), (.float, 3), (.float, 4)]

/-- The value of `sizeof(data)` under `#pragma pack (push, 1)`: the member
sizes added up, with no padding. -/
def TrackerData.sizeof (_data : TrackerData) : Nat :=
  (TrackerData.members.map fun m => m.1.sizeof * m.2).sum

/-! ## Server (lines 123-401) -/

/-- The data members of `class Server`.  A `HANDLE` and a `SOCKET` are
numbers, `0` standing for "none". -/
structure Server where
  m_running : Bool
  m_thread : Nat
  m_socket : Nat
  m_quit : Bool
deriving DecidableEq

/-- What `start` and `stop` do outside the object's own fields. -/
inductive Event where
  /-- A call of `_beginthreadex`, which returned this handle (0 on failure). -/
  | beginThread (handle : Nat)
  /-- A call of `WaitForSingleObject(handle, ms)`. -/
  | wait (handle : Nat) (ms : Nat)
  /-- A call of `CloseHandle(handle)`. -/
  | closeHandle (handle : Nat)
  /-- The store `m_quit = true`, for the server thread to read. -/
  | quitRequested
deriving DecidableEq

/-- The Win32 constant `WAIT_OBJECT_0`. -/
def WAIT_OBJECT_0 : Nat := 0

/-- The Winsock constant `SOCKET_ERROR`. -/
def SOCKET_ERROR : Int := -1

/-- The constructor `Server::Server()`, lines 165-171 (`openWinsock()` touches
no field). -/
def Server.new : Server :=
  { m_running := false, m_thread := 0, m_socket := 0, m_quit := false }

/-- The member `Server::isRunning`, lines 347-349. -/
def Server.isRunning (s : Server) : Bool := s.m_running

/-- The member `Server::start`, lines 285-318.  `beginthreadex` is the handle returned by
`_beginthreadex` and `waitResult` the value returned by
`WaitForSingleObject(m_thread, 100L)`, should they be called. -/
def Server.start (beginthreadex waitResult : Nat) (s : Server) :
    Bool × Server × List Event :=
  -- is server already running?
  if s.isRunning then (true, s, [])
  else
    let s := { s with m_quit := false }
    -- start server thread
    let s := { s with m_thread := beginthreadex }
    -- check result
    if s.m_thread ≠ 0 then
      -- check whether it started
      if waitResult = WAIT_OBJECT_0 then
        (false, { s with m_running := false },
          [.beginThread beginthreadex, .wait s.m_thread 100])
      else
        (true, { s with m_running := true },
          [.beginThread beginthreadex, .wait s.m_thread 100])
    else
      -- failed to start
      (false, { s with m_running := false }, [.beginThread beginthreadex])

/-- The member `Server::stop`, lines 322-343.  `waitResult` is the value returned by
`WaitForSingleObject(m_thread, 4000L)`, should it be called. -/
def Server.stop (waitResult : Nat) (s : Server) : Server × List Event :=
  -- is server already stopped?
  if !s.isRunning then (s, [])
  else
    -- set flag to request thread to stop
    let s := { s with m_quit := true }
    -- wait for it to stop (give it 4 seconds)
    let events :=
      if waitResult = WAIT_OBJECT_0 then
        [Event.quitRequested, .wait s.m_thread 4000, .closeHandle s.m_thread]
      else
        [Event.quitRequested, .wait s.m_thread 4000]
    -- clear thread handle
    let s := { s with m_thread := 0 }
    -- reset running state and stop request flag
    let s := { s with m_running := false }
    let s := { s with m_quit := false }
    (s, events)

/-- One call `::send(sock, ptr, numRemain, 0)` of the Winsock API, as the
program made it: the socket, the offset of `ptr` from the start of the record,
the byte count asked for, and the value returned. -/
structure WriteCall where
  sock : Nat
  offset : Int
  count : Int
  result : Int
deriving DecidableEq

/-- The Winsock `::send`, as a function of the number of the call, the socket,
the offset of the buffer pointer and the byte count. -/
abbrev SocketWrite := Nat → Nat → Int → Int → Int

/-- The `do ... while ( numRemain > 0 )` loop of `Server::send(SOCKET, const
void*, unsigned)`, lines 367-375.  `k` counts the calls made so far; the result
is the final `numRemain` and the calls made, or `none` when the fuel runs
out. -/
def sendLoop (write : SocketWrite) (sock : Nat) :
    Nat → Nat → Int → Int → Option (Int × List WriteCall)
  | 0, _, _, _ => none
  | fuel + 1, k, ptr, numRemain =>
    -- send a packet
    let numSent := write k sock ptr numRemain
    let call : WriteCall := ⟨sock, ptr, numRemain, numSent⟩
    if numSent = SOCKET_ERROR then some (numRemain, [call])
    else
      -- update buffer pointer and byte count
      let ptr := ptr + numSent
      let numRemain := numRemain - numSent
      if numRemain > 0 then
        match sendLoop write sock fuel (k + 1) ptr numRemain with
        | none => none
        | some (r, calls) => some (r, call :: calls)
      else some (numRemain, [call])

/-- The conversion `static_cast<int>(size)` of a 32-bit `unsigned`. -/
def toInt32 (size : Nat) : Int :=
  if size % 4294967296 < 2147483648 then (size % 4294967296 : Nat)
  else ((size % 4294967296 : Nat) : Int) - 4294967296

/-- The private `Server::send(SOCKET sock, const void *data, unsigned size)`,
lines 362-379: returns `size - numRemain` as an `unsigned`. -/
def Server.sendSock (write : SocketWrite) (fuel : Nat) (sock : Nat) (size : Nat) :
    Option (Nat × List WriteCall) :=
  let numRemain := toInt32 size
  match sendLoop write sock fuel 0 0 numRemain with
  | none => none
  | some (numRemain, calls) =>
    -- return number of bytes sent
    some ((((size : Int) - numRemain) % 4294967296).toNat, calls)

/-- The public `Server::send(const TrackerData & data)`, lines 353-358: the
value returned, the server afterwards and the socket writes made. -/
def Server.send (write : SocketWrite) (fuel : Nat) (s : Server)
    (data : TrackerData) : Option (Bool × Server × List WriteCall) :=
  if s.m_socket ≠ 0 then
    match Server.sendSock write fuel s.m_socket data.sizeof with
    | none => none
    | some (n, calls) => some (n == data.sizeof, s, calls)
  else
    some (false, s, [])

/-! ## Globals, tracker callback and main loop (lines 405-446, 582-597) -/

/-- The file-scope variables of lines 405-408, and the `static int first` of
`handleTracker`. -/
structure Globals where
  frames : Nat
  tStamp : Nat
  debugOutput : Bool
  gpX : FP
  gpY : FP
  gpZ : FP
  gq0 : FP
  gq1 : FP
  gq2 : FP
  gq3 : FP
  first : Bool

/-- The initial values: `frames = 0`, `tStamp = -1` as an `unsigned long`,
`debugOutput = false`, pose `0 0 0 / 0 0 0 1`, `first = 1`. -/
def Globals.init : Globals :=
  { frames := 0, tStamp := 4294967295, debugOutput := false,
    gpX := .fin 0, gpY := .fin 0, gpZ := .fin 0,
    gq0 := .fin 0, gq1 := .fin 0, gq2 := .fin 0, gq3 := .fin 1,
    first := true }

/-- The expression `currentTime.tv_usec + (1000000L * currentTime.tv_sec)`
stored in an `unsigned long`: the microsecond count modulo `2^32`. -/
def usecStamp (currentTime : Timeval) : Nat :=
  ((currentTime.tv_usec + 1000000 * currentTime.tv_sec) % 4294967296).toNat

/-- The expression `tStamp2 - tStamp` on `unsigned long` operands. -/
def ulongSub (tStamp2 tStamp : Nat) : Nat :=
  (((tStamp2 : Int) - (tStamp : Int)) % 4294967296).toNat

/-- The callback `handleTracker`, lines 410-446, with console output left out.
`currentTime` is what `vrpn_gettimeofday` returns at the end of the callback.
The result is the globals afterwards and the record passed to
`server->send(data)`, whose return value the callback ignores. -/
def handleTracker (currentTime : Timeval) (g : Globals) (tracker : TrackerCB) :
    Globals × TrackerData :=
  let g := if tracker.sensor = 0 then { g with frames := (g.frames + 1) % 4294967296 } else g
  let g := if g.first || g.debugOutput then { g with first := false } else g
  -- Set global data
  let g := { g with
    gpX := FP.convert binary32 (tracker.pos 0)
    gpY := FP.convert binary32 (tracker.pos 1)
    gpZ := FP.convert binary32 (tracker.pos 2)
    gq0 := FP.convert binary32 (tracker.quat 0)
    gq1 := FP.convert binary32 (tracker.quat 1)
    gq2 := FP.convert binary32 (tracker.quat 2)
    gq3 := FP.convert binary32 (tracker.quat 3) }
  -- tracker data to send to Unity client
  let data := TrackerData.new.set tracker
  let g := { g with tStamp := usecStamp currentTime }
  (g, data)

/-- The staleness check of the main loop, lines 585-596.  The result is the
globals afterwards and the records passed to `server.send(data)`. -/
def stalenessCheck (tLimit : Nat) (currentTime : Timeval) (g : Globals) :
    Globals × List TrackerData :=
  let tStamp2 := usecStamp currentTime
  if ulongSub tStamp2 g.tStamp > tLimit then
    let g := { g with tStamp := tStamp2 }
    -- tracker data to send to Unity client
    let data := TrackerData.new.setValues g.gpX g.gpY g.gpZ g.gq0 g.gq1 g.gq2 g.gq3
      tStamp2 0
    (g, [data])
  else
    (g, [])

/-- One turn of the `while (!_kbhit())` loop, lines 582-597.
`tracker->mainloop()` is the list of tracker reports it delivers to
`handleTracker`, each with the time read at the end of that callback. -/
def mainLoopBody (tLimit : Nat) (reports : List (TrackerCB × Timeval))
    (currentTime : Timeval) (g : Globals) : Globals × List TrackerData :=
  let afterReports := reports.foldl
    (fun (acc : Globals × List TrackerData) report =>
      let r := handleTracker report.2 acc.1 report.1
      (r.1, acc.2 ++ [r.2]))
    (g, [])
  let r := stalenessCheck tLimit currentTime afterReports.1
  (r.1, afterReports.2 ++ r.2)

/-- The trace predicate of a retried write, for calls numbered from `k`: every
call starts at the first byte not yet written, asks for all the bytes that
remain, at least one, and records what the socket write returned for it. -/
def Chained (write : SocketWrite) : Nat → Int → Int → List WriteCall → Prop
  | _, _, _, [] => True
  | k, offset, remain, c :: rest =>
    c.offset = offset ∧ c.count = remain ∧ 0 < c.count ∧
      c.result = write k c.sock c.offset c.count ∧
      Chained write (k + 1) (offset + c.result) (remain - c.result) rest

/-- The bytes a list of socket writes delivered: the byte counts of the calls
that did not fail. -/
def delivered (calls : List WriteCall) : Int :=
  ((calls.filter fun c => c.result ≠ SOCKET_ERROR).map fun c => c.result).sum

/-- The contract of a socket write asked for `n > 0` bytes: it fails or it
writes between 1 and `n` of them. -/
def Admissible (write : SocketWrite) : Prop :=
  ∀ k sock offset n, 0 < n →
    write k sock offset n = SOCKET_ERROR ∨
      (1 ≤ write k sock offset n ∧ write k sock offset n ≤ n)

/-- The number of threads a list of events brought to life: the calls of
`_beginthreadex` that returned a handle. -/
def threadsCreated : List Event → Nat
  | [] => 0
  | .beginThread handle :: rest =>
    (if handle ≠ 0 then 1 else 0) + threadsCreated rest
  | _ :: rest => threadsCreated rest

/-- The tracker report of the end-to-end scenario: time 1.5 s, sensor 0,
position `[1,2,3]`, quaternion `[0,0,0,2]`. -/
def sampleReport : TrackerCB :=
  { msg_time := ⟨1, 500000⟩, sensor := 0,
    pos := ![.fin 1, .fin 2, .fin 3], quat := ![.fin 0, .fin 0, .fin 0, .fin 2] }

/-- A socket write that takes every byte it is offered. -/
def writeAll : SocketWrite := fun _ _ _ n => n

/-- A server with a client connected on socket 7. -/
def connectedServer : Server :=
  { m_running := true, m_thread := 3, m_socket := 7, m_quit := false }

/-- A socket write that takes at most 20 bytes at a time. -/
def writeUpTo20 : SocketWrite := fun _ _ _ n => if n ≤ 20 then n else 20

/-- The globals after the sample report reached a freshly started program at
time 0: last-known quaternion `[0,0,0,2]`, last update at 0 microseconds. -/
def afterSample : Globals :=
  (handleTracker ⟨0, 0⟩ Globals.init sampleReport).1

theorem roundHalfEven_spec (z : ℚ) : |(roundHalfEven z : ℚ) - z| ≤ 1 / 2 := by
  have h1 := Int.floor_le z
  have h2 := Int.lt_floor_add_one z
  unfold roundHalfEven
  simp only
  split_ifs <;> rw [abs_le] <;> push_cast <;> constructor <;> linarith

theorem roundHalfEven_nonneg (z : ℚ) (hz : 0 ≤ z) : 0 ≤ roundHalfEven z := by
  have h0 : 0 ≤ ⌊z⌋ := Int.floor_nonneg.mpr hz
  unfold roundHalfEven
  simp only
  split_ifs <;> omega

theorem roundHalfEven_of_near (z : ℚ) (m : ℤ) (h : |z - m| < 1 / 2) :
    roundHalfEven z = m := by
  rw [abs_lt] at h
  have h1 := Int.floor_le z
  have h2 := Int.lt_floor_add_one z
  have hf : ⌊z⌋ = m ∨ ⌊z⌋ = m - 1 := by
    have a : (m : ℚ) - 1 < ⌊z⌋ + 1 := by linarith [h.1]
    have b : (⌊z⌋ : ℚ) < m + 1 := by linarith [h.2]
    have a' : m - 1 < ⌊z⌋ + 1 := by exact_mod_cast a
    have b' : ⌊z⌋ < m + 1 := by exact_mod_cast b
    omega
  unfold roundHalfEven
  simp only
  rcases hf with hf | hf
  · rw [hf, if_pos (by linarith [h.2])]
  · rw [hf]
    push_cast
    rw [if_neg (by linarith [h.1]), if_pos (by linarith [h.1])]
    ring

theorem ulp_pos (fmt : Format) (x : ℚ) : 0 < fmt.ulp x := by
  unfold Format.ulp
  exact zpow_pos (by norm_num) _

theorem round_zero (fmt : Format) : fmt.round 0 = .fin 0 := by
  simp [Format.round]

/-- Rounding a number of magnitude at most `2 ^ emax` gives a finite number, off
by at most half a unit in the last place, of the same sign. -/
theorem round_spec (fmt : Format) (hp : 1 ≤ fmt.prec) (hmm : fmt.emin ≤ fmt.emax) (x : ℚ)
    (hx : |x| ≤ 2 ^ fmt.emax) :
    ∃ y, fmt.round x = .fin y ∧
      |y - x| ≤ 2 ^ (-(fmt.prec : ℤ)) * |x| + 2 ^ (fmt.emin - fmt.prec) ∧
      (0 ≤ x → 0 ≤ y) := by
  by_cases h0 : x = 0
  · refine ⟨0, by simp [Format.round, h0], ?_, fun _ => le_refl _⟩
    subst h0
    simp
    positivity
  · have hpos : 0 < |x| := abs_pos.mpr h0
    have hL1 : (2 : ℚ) ^ Int.log 2 |x| ≤ |x| := by
      have := Int.zpow_log_le_self (b := 2) (r := |x|) (by norm_num) hpos
      simpa using this
    have hLmax : Int.log 2 |x| ≤ fmt.emax := by
      have : (2 : ℚ) ^ Int.log 2 |x| ≤ 2 ^ fmt.emax := le_trans hL1 hx
      exact (zpow_le_zpow_iff_right₀ (by norm_num : (1 : ℚ) < 2)).mp this
    set e := max (Int.log 2 |x|) fmt.emin with he
    have hemax : e ≤ fmt.emax := max_le hLmax hmm
    have hu : fmt.ulp x = 2 ^ (e - (fmt.prec - 1)) := rfl
    have hupos := ulp_pos fmt x
    have hhalf : fmt.ulp x / 2 = 2 ^ (e - fmt.prec) := by
      rw [hu, show e - ((fmt.prec : ℤ) - 1) = (e - fmt.prec) + 1 by ring,
        zpow_add₀ (by norm_num : (2 : ℚ) ≠ 0)]
      simp
    have hr := roundHalfEven_spec (x / fmt.ulp x)
    set m := roundHalfEven (x / fmt.ulp x) with hm
    have herr : |(m : ℚ) * fmt.ulp x - x| ≤ fmt.ulp x / 2 := by
      have : (m : ℚ) * fmt.ulp x - x = ((m : ℚ) - x / fmt.ulp x) * fmt.ulp x := by
        field_simp
      rw [this, abs_mul, abs_of_pos hupos]
      calc |(m : ℚ) - x / fmt.ulp x| * fmt.ulp x ≤ 1 / 2 * fmt.ulp x :=
            mul_le_mul_of_nonneg_right hr hupos.le
        _ = fmt.ulp x / 2 := by ring
    have hbound : (2 : ℚ) ^ (e - fmt.prec) ≤
        2 ^ (-(fmt.prec : ℤ)) * |x| + 2 ^ (fmt.emin - fmt.prec) := by
      have hA : (0 : ℚ) ≤ 2 ^ (-(fmt.prec : ℤ)) * |x| := by positivity
      have hB : (0 : ℚ) ≤ 2 ^ (fmt.emin - (fmt.prec : ℤ)) := by positivity
      rcases le_total (Int.log 2 |x|) fmt.emin with hle | hle
      · have : e = fmt.emin := max_eq_right hle
        rw [this]; linarith
      · have : e = Int.log 2 |x| := max_eq_left hle
        rw [this, show Int.log 2 |x| - (fmt.prec : ℤ) = -(fmt.prec : ℤ) + Int.log 2 |x| by ring,
          zpow_add₀ (by norm_num : (2 : ℚ) ≠ 0)]
        have : (2 : ℚ) ^ (-(fmt.prec : ℤ)) * 2 ^ Int.log 2 |x| ≤ 2 ^ (-(fmt.prec : ℤ)) * |x| :=
          mul_le_mul_of_nonneg_left hL1 (by positivity)
        linarith
    have hfin : ¬ ((2 : ℚ) ^ (fmt.emax + 1) ≤ |(m : ℚ) * fmt.ulp x|) := by
      rw [not_le]
      have h1 : |(m : ℚ) * fmt.ulp x| ≤ |x| + fmt.ulp x / 2 := by
        have := abs_sub_abs_le_abs_sub ((m : ℚ) * fmt.ulp x) x
        linarith
      have h2 : (2 : ℚ) ^ (e - fmt.prec) < 2 ^ fmt.emax :=
        zpow_lt_zpow_right₀ (by norm_num) (by omega)
      have h3 : (2 : ℚ) ^ (fmt.emax + 1) = 2 ^ fmt.emax * 2 := by
        rw [zpow_add₀ (by norm_num : (2 : ℚ) ≠ 0)]; simp
      rw [h3]
      linarith
    refine ⟨(m : ℚ) * fmt.ulp x, ?_, ?_, ?_⟩
    · unfold Format.round
      rw [if_neg h0]
      simp only
      rw [← hm, if_neg hfin]
    · rw [hhalf] at herr
      exact le_trans herr hbound
    · intro hx0
      have : 0 ≤ m := roundHalfEven_nonneg _ (div_nonneg hx0 hupos.le)
      have : (0 : ℚ) ≤ m := by exact_mod_cast this
      positivity

/-- The value of a rounding, from the exponent `e` of `x` and the integer `m`
nearest to `x` in units of the spacing. -/
theorem round_eval (fmt : Format) (x y : ℚ) (e m : ℤ) (hx : 0 < |x|)
    (h1 : 2 ^ e ≤ |x|) (h2 : |x| < 2 ^ (e + 1))
    (hm : |x / 2 ^ (max e fmt.emin - (fmt.prec - 1)) - m| < 1 / 2)
    (hy : (m : ℚ) * 2 ^ (max e fmt.emin - (fmt.prec - 1)) = y) :
    fmt.round x = if 2 ^ (fmt.emax + 1) ≤ |y| then .inf (decide (x < 0)) else .fin y := by
  have hlog : Int.log 2 |x| = e := by
    apply le_antisymm
    · have := (Int.lt_zpow_iff_log_lt (b := 2) (by norm_num) hx (x := e + 1)).mp
        (by simpa using h2)
      omega
    · exact (Int.zpow_le_iff_le_log (b := 2) (by norm_num) hx).mp (by simpa using h1)
  have hu : fmt.ulp x = 2 ^ (max e fmt.emin - (fmt.prec - 1)) := by
    unfold Format.ulp; rw [hlog]
  unfold Format.round
  rw [if_neg (abs_pos.mp hx)]
  simp only
  rw [hu, roundHalfEven_of_near _ m hm, hy]

/-- The uniform error bound used below, for both formats and numbers up to
`2 ^ 127`: relative error `2 ^ -24`, absolute error `2 ^ -150`. -/
theorem round_real (fmt : Format) (hfmt : fmt = binary32 ∨ fmt = binary64) (x : ℚ)
    (hx : |(x : ℝ)| ≤ 2 ^ 127) :
    ∃ y : ℚ, fmt.round x = .fin y ∧
      |(y : ℝ) - x| ≤ |(x : ℝ)| / 2 ^ 24 + 1 / 2 ^ 150 ∧ (0 ≤ (x : ℝ) → 0 ≤ (y : ℝ)) := by
  have hxq : |x| ≤ (2 : ℚ) ^ (127 : ℕ) := by
    have : ((|x| : ℚ) : ℝ) ≤ (((2 : ℚ) ^ (127 : ℕ) : ℚ) : ℝ) := by
      push_cast; exact hx
    exact_mod_cast this
  have h0 : (0 : ℚ) ≤ |x| := abs_nonneg x
  have key : ∃ y : ℚ, fmt.round x = .fin y ∧
      |y - x| ≤ |x| / 2 ^ 24 + 1 / 2 ^ 150 ∧ (0 ≤ x → 0 ≤ y) := by
    rcases hfmt with rfl | rfl
    · have hx32 : |x| ≤ (2 : ℚ) ^ (127 : ℤ) := by
        have h127 : (2 : ℚ) ^ (127 : ℕ) = 2 ^ (127 : ℤ) := by norm_cast
        rw [← h127]; exact hxq
      obtain ⟨y, hy, herr, hnn⟩ := round_spec binary32 (by simp [binary32])
        (by simp [binary32]) x hx32
      refine ⟨y, hy, ?_, hnn⟩
      simp only [binary32, Nat.cast_ofNat] at herr
      have e1 : (2 : ℚ) ^ (-(24 : ℤ)) = 1 / 2 ^ 24 := by norm_num
      have e2 : (2 : ℚ) ^ ((-126 : ℤ) - 24) = 1 / 2 ^ 150 := by norm_num
      rw [e1, e2] at herr
      linarith
    · have hx64 : |x| ≤ (2 : ℚ) ^ (1023 : ℤ) := by
        have h127 : (2 : ℚ) ^ (127 : ℕ) = 2 ^ (127 : ℤ) := by norm_cast
        rw [h127] at hxq
        exact le_trans hxq (zpow_le_zpow_right₀ (by norm_num) (by norm_num))
      obtain ⟨y, hy, herr, hnn⟩ := round_spec binary64 (by simp [binary64])
        (by simp [binary64]) x hx64
      refine ⟨y, hy, ?_, hnn⟩
      simp only [binary64, Nat.cast_ofNat] at herr
      have e1 : (2 : ℚ) ^ (-(53 : ℤ)) ≤ 1 / 2 ^ 24 := by
        rw [show (1 : ℚ) / 2 ^ 24 = 2 ^ (-(24 : ℤ)) by norm_num]
        exact zpow_le_zpow_right₀ (by norm_num) (by norm_num)
      have e2 : (2 : ℚ) ^ ((-1022 : ℤ) - 53) ≤ 1 / 2 ^ 150 := by
        rw [show (1 : ℚ) / 2 ^ 150 = 2 ^ (-(150 : ℤ)) by norm_num]
        exact zpow_le_zpow_right₀ (by norm_num) (by norm_num)
      have e3 : (2 : ℚ) ^ (-(53 : ℤ)) * |x| ≤ 1 / 2 ^ 24 * |x| :=
        mul_le_mul_of_nonneg_right e1 h0
      generalize (2 : ℚ) ^ (-(53 : ℤ)) * |x| = u at herr e3
      generalize (2 : ℚ) ^ ((-1022 : ℤ) - 53) = w at herr e2
      linarith
  obtain ⟨y, hy, herr, hnn⟩ := key
  refine ⟨y, hy, ?_, ?_⟩
  · have : ((|y - x| : ℚ) : ℝ) ≤ ((|x| / 2 ^ 24 + 1 / 2 ^ 150 : ℚ) : ℝ) := by
      exact_mod_cast herr
    push_cast at this
    exact this
  · intro hx0
    have : (0 : ℚ) ≤ x := by exact_mod_cast hx0
    exact_mod_cast hnn this

/-! ## Square root -/

theorem sqrtApprox_spec (x : ℚ) (hx : 0 < x) :
    0 < sqrtApprox x ∧
    |((sqrtApprox x : ℚ) : ℝ) - Real.sqrt x| ≤ Real.sqrt x / 2 ^ 64 := by
  have hxr : (0 : ℝ) < x := by exact_mod_cast hx
  set L := Int.log 2 x with hL
  have hL1 : (2 : ℚ) ^ L ≤ x := by
    have := Int.zpow_log_le_self (b := 2) (r := x) (by norm_num) hx
    simpa using this
  set k : ℤ := 64 - L / 2 with hk
  set y : ℚ := x * 4 ^ k with hy
  have h4 : (4 : ℚ) ^ k = 2 ^ (2 * k) := by
    rw [zpow_mul]; norm_num
  have hy128 : (2 : ℚ) ^ (128 : ℤ) ≤ y := by
    have h1 : (2 : ℚ) ^ (L + 2 * k) ≤ y := by
      rw [hy, h4, zpow_add₀ (by norm_num : (2 : ℚ) ≠ 0)]
      exact mul_le_mul_of_nonneg_right hL1 (by positivity)
    have h2 : (2 : ℚ) ^ (128 : ℤ) ≤ 2 ^ (L + 2 * k) :=
      zpow_le_zpow_right₀ (by norm_num) (by omega)
    exact le_trans h2 h1
  have hy0 : 0 ≤ y := le_trans (by positivity) hy128
  set m : ℕ := Nat.sqrt ⌊y⌋₊ with hm
  have hm1 : ((m : ℚ)) ^ 2 ≤ y := by
    have h1 : m ^ 2 ≤ ⌊y⌋₊ := Nat.sqrt_le' _
    have h2 : ((⌊y⌋₊ : ℕ) : ℚ) ≤ y := Nat.floor_le hy0
    have h3 : ((m ^ 2 : ℕ) : ℚ) ≤ (⌊y⌋₊ : ℚ) := by exact_mod_cast h1
    push_cast at h3
    linarith
  have hm2 : y < ((m : ℚ) + 1) ^ 2 := by
    have h1 : ⌊y⌋₊ < (m + 1) ^ 2 := Nat.lt_succ_sqrt' _
    have h2 : y < (⌊y⌋₊ : ℚ) + 1 := Nat.lt_floor_add_one y
    have h3 : ((⌊y⌋₊ + 1 : ℕ) : ℚ) ≤ (((m + 1) ^ 2 : ℕ) : ℚ) := by exact_mod_cast h1
    push_cast at h3
    linarith
  have hyr : (0 : ℝ) ≤ (y : ℝ) := by exact_mod_cast hy0
  have hs1 : (m : ℝ) ≤ Real.sqrt y := by
    apply Real.le_sqrt_of_sq_le
    exact_mod_cast hm1
  have hs2 : Real.sqrt y < (m : ℝ) + 1 := by
    rw [Real.sqrt_lt' (by positivity)]
    exact_mod_cast hm2
  have hs3 : (2 : ℝ) ^ (64 : ℕ) ≤ Real.sqrt y := by
    apply Real.le_sqrt_of_sq_le
    have e : ((2 : ℝ) ^ (64 : ℕ)) ^ 2 = 2 ^ (128 : ℤ) := by norm_num
    rw [e]
    exact_mod_cast hy128
  have hsy : Real.sqrt y = Real.sqrt x * 2 ^ k := by
    rw [hy]
    push_cast
    rw [Real.sqrt_mul hxr.le]
    congr 1
    have : (4 : ℝ) ^ k = (2 ^ k) ^ 2 := by
      rw [← zpow_natCast, ← zpow_mul, mul_comm, zpow_mul]; norm_num
    rw [this, Real.sqrt_sq (by positivity)]
  have h2k : (0 : ℝ) < 2 ^ k := by positivity
  have hval : ∃ s : ℝ, 0 ≤ s ∧ s ≤ 1 ∧
      ((sqrtApprox x : ℚ) : ℝ) = ((m : ℝ) + s / 2) / 2 ^ k := by
    refine ⟨if (m : ℚ) * m = y then 0 else 1, by split_ifs <;> norm_num,
      by split_ifs <;> norm_num, ?_⟩
    unfold sqrtApprox
    simp only
    rw [← hL, ← hk, ← hy, ← hm]
    have e : (2 : ℝ) ^ (k + 1) = 2 ^ k * 2 := by
      rw [zpow_add₀ (by norm_num : (2 : ℝ) ≠ 0)]; simp
    split_ifs <;> push_cast <;> rw [e] <;> field_simp <;> ring
  obtain ⟨s, hs0, hs1', hval⟩ := hval
  have hsx : Real.sqrt x = Real.sqrt y / 2 ^ k := by
    rw [hsy]; field_simp
  constructor
  · have : (0 : ℝ) < ((sqrtApprox x : ℚ) : ℝ) := by
      rw [hval]
      have : (0 : ℝ) < (m : ℝ) + s / 2 := by
        have : (0 : ℝ) < (2 : ℝ) ^ (64 : ℕ) - 1 := by norm_num
        linarith
      positivity
    exact_mod_cast this
  · rw [hval, hsx, ← sub_div, abs_div, abs_of_pos h2k, div_div, mul_comm, ← div_div]
    apply div_le_div_of_nonneg_right _ h2k.le
    rw [abs_le]
    have : (1 : ℝ) ≤ Real.sqrt y / 2 ^ 64 := by
      rw [le_div_iff₀ (by positivity)]
      linarith
    constructor <;> linarith

/-- The modelled `sqrt` is accurate: on a number between `2 ^ -200` and
`2 ^ 200` it returns a finite number within `2 ^ -24 + 2 ^ -48` (relative) of
the square root. -/
theorem sqrt_real (x : ℚ) (h1 : 1 / 2 ^ 200 ≤ (x : ℝ)) (h2 : (x : ℝ) ≤ 2 ^ 200) :
    ∃ t : ℚ, FP.sqrt (.fin x) = .fin t ∧
      |(t : ℝ) - Real.sqrt x| ≤ Real.sqrt x * (1 / 2 ^ 24 + 1 / 2 ^ 48) := by
  have hxr : (0 : ℝ) < x := lt_of_lt_of_le (by positivity) h1
  have hx : 0 < x := by exact_mod_cast hxr
  obtain ⟨ha0, ha⟩ := sqrtApprox_spec x hx
  have har : (0 : ℝ) < ((sqrtApprox x : ℚ) : ℝ) := by exact_mod_cast ha0
  have hlo : (1 : ℝ) / 2 ^ 100 ≤ Real.sqrt x := by
    apply Real.le_sqrt_of_sq_le
    have : ((1 : ℝ) / 2 ^ 100) ^ 2 = 1 / 2 ^ 200 := by norm_num
    rw [this]; exact h1
  have hhi : Real.sqrt x ≤ 2 ^ 100 := by
    rw [Real.sqrt_le_iff]
    refine ⟨by positivity, ?_⟩
    have : ((2 : ℝ) ^ 100) ^ 2 = 2 ^ 200 := by norm_num
    rw [this]; exact h2
  rw [abs_le] at ha
  obtain ⟨t, ht, herr, -⟩ := round_real binary64 (Or.inr rfl) (sqrtApprox x) (by
    rw [abs_of_pos har]
    have : (2 : ℝ) ^ 100 + 2 ^ 100 / 2 ^ 64 ≤ 2 ^ 127 := by norm_num
    have h3 : Real.sqrt x / 2 ^ 64 ≤ 2 ^ 100 / 2 ^ 64 :=
      div_le_div_of_nonneg_right hhi (by positivity)
    linarith [ha.2])
  refine ⟨t, ?_, ?_⟩
  · simp [FP.sqrt, not_lt.mpr hx.le, hx.ne', ht]
  · rw [abs_of_pos har, abs_le] at herr
    rw [abs_le]
    constructor <;> nlinarith [herr.1, herr.2, ha.1, ha.2, hlo]

/-! ## Normalisation of a quaternion in floating point -/

theorem sq_bounds (a : ℝ) (h : |a| ≤ 2 ^ 60) : 0 ≤ a ^ 2 ∧ a ^ 2 ≤ 2 ^ 120 := by
  constructor
  · positivity
  · have h1 : |a| ^ 2 ≤ (2 ^ 60) ^ 2 := pow_le_pow_left₀ (abs_nonneg a) h 2
    rw [sq_abs] at h1
    have : ((2 : ℝ) ^ 60) ^ 2 = 2 ^ 120 := by norm_num
    rw [this] at h1
    exact h1

theorem sq_lower (a : ℝ) (h : 1 / 2 ^ 60 ≤ |a|) : 1 / 2 ^ 120 ≤ a ^ 2 := by
  have h1 : (1 / 2 ^ 60 : ℝ) ^ 2 ≤ |a| ^ 2 := pow_le_pow_left₀ (by positivity) h 2
  rw [sq_abs] at h1
  have : ((1 : ℝ) / 2 ^ 60) ^ 2 = 1 / 2 ^ 120 := by norm_num
  rw [this] at h1
  exact h1

/-- The sum of squares computed by the loop is finite and within `6 * 2 ^ -24`
(relative) of the exact sum, for components up to `2 ^ 60` with an exact sum of
at least `2 ^ -120`. -/
theorem sumSquares_spec (fmt : Format) (hfmt : fmt = binary32 ∨ fmt = binary64)
    (q : Fin 4 → ℚ) (hmax : ∀ i, |(q i : ℝ)| ≤ 2 ^ 60)
    (hA : 1 / 2 ^ 120 ≤ (q 0 : ℝ) ^ 2 + (q 1 : ℝ) ^ 2 + (q 2 : ℝ) ^ 2 + (q 3 : ℝ) ^ 2) :
    ∃ S : ℚ, sumSquares fmt (fun i => .fin (q i)) = .fin S ∧
      (1 - 6 / 2 ^ 24) * ((q 0 : ℝ) ^ 2 + (q 1 : ℝ) ^ 2 + (q 2 : ℝ) ^ 2 + (q 3 : ℝ) ^ 2)
        ≤ S ∧
      (S : ℝ) ≤ (1 + 6 / 2 ^ 24) *
        ((q 0 : ℝ) ^ 2 + (q 1 : ℝ) ^ 2 + (q 2 : ℝ) ^ 2 + (q 3 : ℝ) ^ 2) := by
  have prod : ∀ i, ∃ p : ℚ, FP.mul fmt (.fin (q i)) (.fin (q i)) = .fin p ∧
      (1 - 1 / 2 ^ 24) * (q i : ℝ) ^ 2 - 1 / 2 ^ 150 ≤ p ∧
      (p : ℝ) ≤ (1 + 1 / 2 ^ 24) * (q i : ℝ) ^ 2 + 1 / 2 ^ 150 ∧ 0 ≤ (p : ℝ) := by
    intro i
    obtain ⟨h0, h1⟩ := sq_bounds (q i : ℝ) (hmax i)
    have hc : ((q i * q i : ℚ) : ℝ) = (q i : ℝ) ^ 2 := by push_cast; ring
    obtain ⟨p, hp, herr, hnn⟩ := round_real fmt hfmt (q i * q i) (by
      rw [hc, abs_of_nonneg h0]; linarith [show (2 : ℝ) ^ 120 ≤ 2 ^ 127 by norm_num])
    rw [hc, abs_of_nonneg h0, abs_le] at herr
    exact ⟨p, hp, by linarith [herr.1], by linarith [herr.2], hnn (by rw [hc]; exact h0)⟩
  have step : ∀ (s p : ℚ), 0 ≤ (s : ℝ) → 0 ≤ (p : ℝ) → (s : ℝ) + p ≤ 2 ^ 126 →
      ∃ s' : ℚ, FP.add binary64 (.fin s) (.fin p) = .fin s' ∧
        (1 - 1 / 2 ^ 24) * ((s : ℝ) + p) - 1 / 2 ^ 150 ≤ s' ∧
        (s' : ℝ) ≤ (1 + 1 / 2 ^ 24) * ((s : ℝ) + p) + 1 / 2 ^ 150 ∧ 0 ≤ (s' : ℝ) := by
    intro s p hs hp hsp
    have hc : ((s + p : ℚ) : ℝ) = (s : ℝ) + p := by push_cast; ring
    have h0 : (0 : ℝ) ≤ (s : ℝ) + p := by linarith
    obtain ⟨s', hs', herr, hnn⟩ := round_real binary64 (Or.inr rfl) (s + p) (by
      rw [hc, abs_of_nonneg h0]; linarith [show (2 : ℝ) ^ 126 ≤ 2 ^ 127 by norm_num])
    rw [hc, abs_of_nonneg h0, abs_le] at herr
    exact ⟨s', hs', by linarith [herr.1], by linarith [herr.2], hnn (by rw [hc]; exact h0)⟩
  obtain ⟨p0, hp0, a0, b0, n0⟩ := prod 0
  obtain ⟨p1, hp1, a1, b1, n1⟩ := prod 1
  obtain ⟨p2, hp2, a2, b2, n2⟩ := prod 2
  obtain ⟨p3, hp3, a3, b3, n3⟩ := prod 3
  obtain ⟨h00, h01⟩ := sq_bounds (q 0 : ℝ) (hmax 0)
  obtain ⟨h10, h11⟩ := sq_bounds (q 1 : ℝ) (hmax 1)
  obtain ⟨h20, h21⟩ := sq_bounds (q 2 : ℝ) (hmax 2)
  obtain ⟨h30, h31⟩ := sq_bounds (q 3 : ℝ) (hmax 3)
  have z0 : ((0 : ℚ) : ℝ) = 0 := by norm_num
  obtain ⟨s1, hs1, c1, d1, m1⟩ := step 0 p0 (by rw [z0]) n0 (by rw [z0]; linarith)
  rw [z0] at c1 d1
  obtain ⟨s2, hs2, c2, d2, m2⟩ := step s1 p1 m1 n1 (by linarith)
  obtain ⟨s3, hs3, c3, d3, m3⟩ := step s2 p2 m2 n2 (by linarith)
  obtain ⟨s4, hs4, c4, d4, m4⟩ := step s3 p3 m3 n3 (by linarith)
  refine ⟨s4, ?_, ?_, ?_⟩
  · simp only [sumSquares, List.foldl, hp0, hp1, hp2, hp3, hs1, hs2, hs3, hs4]
  · linarith
  · linarith

theorem sqrt_range (A : ℝ) (hA1 : 1 / 2 ^ 120 ≤ A) (hA2 : A ≤ 2 ^ 122) :
    0 < Real.sqrt A ∧ Real.sqrt A ^ 2 = A ∧ 1 / 2 ^ 60 ≤ Real.sqrt A ∧
      Real.sqrt A ≤ 2 ^ 61 ∧ 1 / 2 ^ 61 ≤ 1 / Real.sqrt A ∧ 1 / Real.sqrt A ≤ 2 ^ 60 ∧
      Real.sqrt A * (1 / Real.sqrt A) = 1 := by
  have hA0 : 0 < A := lt_of_lt_of_le (by positivity) hA1
  have h1 : (1 : ℝ) / 2 ^ 60 ≤ Real.sqrt A := by
    apply Real.le_sqrt_of_sq_le
    have : ((1 : ℝ) / 2 ^ 60) ^ 2 = 1 / 2 ^ 120 := by norm_num
    rw [this]; exact hA1
  have h2 : Real.sqrt A ≤ 2 ^ 61 := by
    rw [Real.sqrt_le_iff]
    refine ⟨by positivity, ?_⟩
    have : ((2 : ℝ) ^ 61) ^ 2 = 2 ^ 122 := by norm_num
    rw [this]; exact hA2
  have h0 : 0 < Real.sqrt A := lt_of_lt_of_le (by positivity) h1
  refine ⟨h0, Real.sq_sqrt hA0.le, h1, h2, ?_, ?_, ?_⟩
  · rw [div_le_div_iff₀ (by positivity) h0]; linarith
  · rw [div_le_iff₀ h0]
    have : (2 : ℝ) ^ 60 * (1 / 2 ^ 60) = 1 := by norm_num
    nlinarith
  · field_simp

/-- The scale factor `1.0 / sqrt(sum)` is finite and within `11 * 2 ^ -24`
(relative) of one over the exact norm. -/
theorem scale_spec (S : ℚ) (A : ℝ) (hA1 : 1 / 2 ^ 120 ≤ A) (hA2 : A ≤ 2 ^ 122)
    (hS1 : (1 - 6 / 2 ^ 24) * A ≤ S) (hS2 : (S : ℝ) ≤ (1 + 6 / 2 ^ 24) * A) :
    ∃ c : ℚ, FP.div binary64 (.fin 1) (FP.sqrt (.fin S)) = .fin c ∧
      (1 - 11 / 2 ^ 24) * (1 / Real.sqrt A) ≤ c ∧
      (c : ℝ) ≤ (1 + 11 / 2 ^ 24) * (1 / Real.sqrt A) := by
  obtain ⟨hN0, hN2, hN1, hN3, hv1, hv2, hNv⟩ := sqrt_range A hA1 hA2
  have hA0 : 0 < A := lt_of_lt_of_le (by positivity) hA1
  set N := Real.sqrt A with hN
  set v := 1 / N with hv
  have hv0 : 0 < v := lt_of_lt_of_le (by positivity) hv1
  -- the square root of the computed sum
  have hr1 : (1 - 6 / 2 ^ 24) * N ≤ Real.sqrt S := by
    apply Real.le_sqrt_of_sq_le
    have : ((1 - 6 / 2 ^ 24) * N) ^ 2 = (1 - 6 / 2 ^ 24) ^ 2 * A := by rw [mul_pow, hN2]
    rw [this]
    linarith
  have hr2 : Real.sqrt S ≤ (1 + 6 / 2 ^ 24) * N := by
    rw [Real.sqrt_le_iff]
    refine ⟨by positivity, ?_⟩
    have : ((1 + 6 / 2 ^ 24) * N) ^ 2 = (1 + 6 / 2 ^ 24) ^ 2 * A := by rw [mul_pow, hN2]
    rw [this]
    linarith
  obtain ⟨t, ht, hterr⟩ := sqrt_real S (by linarith) (by linarith)
  rw [abs_le] at hterr
  have ht1 : (1 - 8 / 2 ^ 24) * N ≤ t := by linarith [hterr.1]
  have ht2 : (t : ℝ) ≤ (1 + 8 / 2 ^ 24) * N := by linarith [hterr.2]
  have ht0 : (0 : ℝ) < t := lt_of_lt_of_le (by positivity) ht1
  have htq : t ≠ 0 := by
    intro h; rw [h] at ht0; simp at ht0
  -- the quotient
  have hd1 : (1 - 9 / 2 ^ 24) * v ≤ 1 / (t : ℝ) := by
    rw [hv, mul_one_div, div_le_div_iff₀ hN0 ht0]
    linarith
  have hd2 : 1 / (t : ℝ) ≤ (1 + 9 / 2 ^ 24) * v := by
    rw [hv, mul_one_div, div_le_div_iff₀ ht0 hN0]
    linarith
  have hd0 : (0 : ℝ) < 1 / (t : ℝ) := by positivity
  have hcast : ((1 / t : ℚ) : ℝ) = 1 / (t : ℝ) := by push_cast; ring
  obtain ⟨c, hc, hcerr, -⟩ := round_real binary64 (Or.inr rfl) (1 / t) (by
    rw [hcast, abs_of_pos hd0]
    have : (1 + 9 / 2 ^ 24) * (2 : ℝ) ^ 60 ≤ 2 ^ 127 := by norm_num
    linarith)
  rw [hcast, abs_of_pos hd0, abs_le] at hcerr
  refine ⟨c, ?_, by linarith [hcerr.1], by linarith [hcerr.2]⟩
  rw [ht]
  simp only [FP.div, if_neg htq, hc]

/-- One component of the rotation is finite and within `2 ^ -20` of the exact
component of the normalised quaternion. -/
theorem component_spec (a c : ℚ) (A : ℝ) (hA1 : 1 / 2 ^ 120 ≤ A) (hA2 : A ≤ 2 ^ 122)
    (ha : (a : ℝ) ^ 2 ≤ A)
    (hc1 : (1 - 11 / 2 ^ 24) * (1 / Real.sqrt A) ≤ c)
    (hc2 : (c : ℝ) ≤ (1 + 11 / 2 ^ 24) * (1 / Real.sqrt A)) :
    ∃ r : ℚ, FP.convert binary32 (FP.mul binary64 (.fin a) (.fin c)) = .fin r ∧
      |(r : ℝ) - a / Real.sqrt A| ≤ 1 / 2 ^ 20 := by
  obtain ⟨hN0, hN2, hN1, hN3, hv1, hv2, hNv⟩ := sqrt_range A hA1 hA2
  set N := Real.sqrt A with hN
  set v := 1 / N with hv
  have hv0 : 0 < v := lt_of_lt_of_le (by positivity) hv1
  have haN : |(a : ℝ)| ≤ N := Real.abs_le_sqrt ha
  have hx : |(a : ℝ)| * v ≤ 1 := by
    calc |(a : ℝ)| * v ≤ N * v := mul_le_mul_of_nonneg_right haN hv0.le
      _ = 1 := hNv
  have hxv : (a : ℝ) / N = a * v := by rw [hv]; ring
  -- the exact product
  have hg : |(a : ℝ) * c - a * v| ≤ 11 / 2 ^ 24 := by
    have h1 : (a : ℝ) * c - a * v = a * (c - v) := by ring
    have h2 : |(c : ℝ) - v| ≤ 11 / 2 ^ 24 * v := by
      rw [abs_le]; constructor <;> linarith
    rw [h1, abs_mul]
    calc |(a : ℝ)| * |(c : ℝ) - v| ≤ |(a : ℝ)| * (11 / 2 ^ 24 * v) :=
          mul_le_mul_of_nonneg_left h2 (abs_nonneg _)
      _ = 11 / 2 ^ 24 * (|(a : ℝ)| * v) := by ring
      _ ≤ 11 / 2 ^ 24 * 1 := mul_le_mul_of_nonneg_left hx (by positivity)
      _ = 11 / 2 ^ 24 := by ring
  have hxa : |(a : ℝ) * v| ≤ 1 := by
    rw [abs_mul, abs_of_pos hv0]; exact hx
  rw [abs_le] at hg hxa
  have hgabs : |(a : ℝ) * c| ≤ 1 + 11 / 2 ^ 24 := by
    rw [abs_le]; constructor <;> linarith [hg.1, hg.2, hxa.1, hxa.2]
  have hcast : ((a * c : ℚ) : ℝ) = (a : ℝ) * c := by push_cast; ring
  obtain ⟨w, hw, hwerr, -⟩ := round_real binary64 (Or.inr rfl) (a * c) (by
    rw [hcast]
    have : (1 : ℝ) + 11 / 2 ^ 24 ≤ 2 ^ 127 := by norm_num
    linarith)
  rw [hcast] at hwerr
  have hwerr' : |(w : ℝ) - a * c| ≤ (1 + 11 / 2 ^ 24) / 2 ^ 24 + 1 / 2 ^ 150 := by
    have : |(a : ℝ) * c| / 2 ^ 24 ≤ (1 + 11 / 2 ^ 24) / 2 ^ 24 :=
      div_le_div_of_nonneg_right hgabs (by positivity)
    linarith
  rw [abs_le] at hwerr'
  have hwabs : |(w : ℝ)| ≤ 1 + 13 / 2 ^ 24 := by
    rw [abs_le]; constructor <;> linarith [hg.1, hg.2, hxa.1, hxa.2, hwerr'.1, hwerr'.2]
  obtain ⟨r, hr, hrerr, -⟩ := round_real binary32 (Or.inl rfl) w (by
    have : (1 : ℝ) + 13 / 2 ^ 24 ≤ 2 ^ 127 := by norm_num
    linarith)
  have hrerr' : |(r : ℝ) - w| ≤ (1 + 13 / 2 ^ 24) / 2 ^ 24 + 1 / 2 ^ 150 := by
    have : |(w : ℝ)| / 2 ^ 24 ≤ (1 + 13 / 2 ^ 24) / 2 ^ 24 :=
      div_le_div_of_nonneg_right hwabs (by positivity)
    linarith
  rw [abs_le] at hrerr'
  refine ⟨r, ?_, ?_⟩
  · simp only [FP.mul, hw, FP.convert, hr]
  · rw [hxv, abs_le]
    constructor <;> linarith [hg.1, hg.2, hwerr'.1, hwerr'.2, hrerr'.1, hrerr'.2]

/-- Four numbers within `2 ^ -20` of the components of a unit vector have a
Euclidean norm within `10 ^ -5` of 1. -/
theorem norm_near_one (r x : Fin 4 → ℝ)
    (hx : x 0 ^ 2 + x 1 ^ 2 + x 2 ^ 2 + x 3 ^ 2 = 1)
    (hr : ∀ i, |r i - x i| ≤ 1 / 2 ^ 20) :
    |Real.sqrt (r 0 ^ 2 + r 1 ^ 2 + r 2 ^ 2 + r 3 ^ 2) - 1| ≤ 1 / 100000 := by
  have comp : ∀ i, x i ^ 2 ≤ 1 → |r i ^ 2 - x i ^ 2| ≤ 1 / 2 ^ 20 * (2 + 1 / 2 ^ 20) := by
    intro i hxi
    have hx1 : |x i| ≤ 1 := by
      rw [abs_le]
      constructor <;> nlinarith [sq_nonneg (x i + 1), sq_nonneg (x i - 1)]
    have h1 : r i ^ 2 - x i ^ 2 = (r i - x i) * (r i - x i + 2 * x i) := by ring
    have h2 : |r i - x i + 2 * x i| ≤ 1 / 2 ^ 20 + 2 := by
      have := hr i
      rw [abs_le] at this hx1 ⊢
      constructor <;> linarith [this.1, this.2, hx1.1, hx1.2]
    rw [h1, abs_mul]
    calc |r i - x i| * |r i - x i + 2 * x i| ≤ 1 / 2 ^ 20 * (1 / 2 ^ 20 + 2) :=
          mul_le_mul (hr i) h2 (abs_nonneg _) (by positivity)
      _ = 1 / 2 ^ 20 * (2 + 1 / 2 ^ 20) := by ring
  have c0 := comp 0 (by nlinarith [sq_nonneg (x 1), sq_nonneg (x 2), sq_nonneg (x 3)])
  have c1 := comp 1 (by nlinarith [sq_nonneg (x 0), sq_nonneg (x 2), sq_nonneg (x 3)])
  have c2 := comp 2 (by nlinarith [sq_nonneg (x 0), sq_nonneg (x 1), sq_nonneg (x 3)])
  have c3 := comp 3 (by nlinarith [sq_nonneg (x 0), sq_nonneg (x 1), sq_nonneg (x 2)])
  rw [abs_le] at c0 c1 c2 c3
  have hB1 : 1 - 1 / 130000 ≤ r 0 ^ 2 + r 1 ^ 2 + r 2 ^ 2 + r 3 ^ 2 := by
    linarith [c0.1, c1.1, c2.1, c3.1]
  have hB2 : r 0 ^ 2 + r 1 ^ 2 + r 2 ^ 2 + r 3 ^ 2 ≤ 1 + 1 / 130000 := by
    linarith [c0.2, c1.2, c2.2, c3.2]
  rw [abs_le]
  constructor
  · have : (1 - 1 / 100000 : ℝ) ≤ Real.sqrt (r 0 ^ 2 + r 1 ^ 2 + r 2 ^ 2 + r 3 ^ 2) := by
      apply Real.le_sqrt_of_sq_le
      linarith
    linarith
  · have : Real.sqrt (r 0 ^ 2 + r 1 ^ 2 + r 2 ^ 2 + r 3 ^ 2) ≤ 1 + 1 / 100000 := by
      rw [Real.sqrt_le_iff]
      refine ⟨by norm_num, ?_⟩
      linarith
    linarith

/-! ## Values of particular roundings -/

/-- The value of the rounding of a positive number, from its exponent `e` and
the integer `m` nearest to it in units of the spacing. -/
theorem round_eval_pos (fmt : Format) (x y : ℚ) (e m : ℤ) (hx : 0 < x)
    (h1 : 2 ^ e ≤ x) (h2 : x < 2 ^ (e + 1))
    (hm1 : (m : ℚ) - 1 / 2 < x / 2 ^ (max e fmt.emin - (fmt.prec - 1)))
    (hm2 : x / 2 ^ (max e fmt.emin - (fmt.prec - 1)) < (m : ℚ) + 1 / 2)
    (hy : (m : ℚ) * 2 ^ (max e fmt.emin - (fmt.prec - 1)) = y)
    (hfin : y < 2 ^ (fmt.emax + 1)) (hy0 : 0 ≤ y) : fmt.round x = .fin y := by
  rw [round_eval fmt x y e m (by rw [abs_of_pos hx]; exact hx) (by rw [abs_of_pos hx]; exact h1)
    (by rw [abs_of_pos hx]; exact h2) (by rw [abs_lt]; constructor <;> linarith) hy,
    if_neg (by rw [abs_of_nonneg hy0]; exact not_le.mpr hfin)]

theorem round32_one : binary32.round 1 = .fin 1 :=
  round_eval_pos binary32 1 1 0 8388608 (by norm_num) (by norm_num) (by norm_num)
    (by norm_num [binary32]) (by norm_num [binary32]) (by norm_num [binary32])
    (by norm_num [binary32]) (by norm_num)

theorem round32_two : binary32.round 2 = .fin 2 :=
  round_eval_pos binary32 2 2 1 8388608 (by norm_num) (by norm_num) (by norm_num)
    (by norm_num [binary32]) (by norm_num [binary32]) (by norm_num [binary32])
    (by norm_num [binary32]) (by norm_num)

theorem round32_four : binary32.round 4 = .fin 4 :=
  round_eval_pos binary32 4 4 2 8388608 (by norm_num) (by norm_num) (by norm_num)
    (by norm_num [binary32]) (by norm_num [binary32]) (by norm_num [binary32])
    (by norm_num [binary32]) (by norm_num)

theorem round32_three_halves : binary32.round (3 / 2) = .fin (3 / 2) :=
  round_eval_pos binary32 (3 / 2) (3 / 2) 0 12582912 (by norm_num) (by norm_num)
    (by norm_num) (by norm_num [binary32]) (by norm_num [binary32])
    (by norm_num [binary32]) (by norm_num [binary32]) (by norm_num)

theorem round32_500000 : binary32.round 500000 = .fin 500000 :=
  round_eval_pos binary32 500000 500000 18 16000000 (by norm_num) (by norm_num)
    (by norm_num) (by norm_num [binary32]) (by norm_num [binary32])
    (by norm_num [binary32]) (by norm_num [binary32]) (by norm_num)

theorem round32_1500000 : binary32.round 1500000 = .fin 1500000 :=
  round_eval_pos binary32 1500000 1500000 20 12000000 (by norm_num) (by norm_num)
    (by norm_num) (by norm_num [binary32]) (by norm_num [binary32])
    (by norm_num [binary32]) (by norm_num [binary32]) (by norm_num)

theorem round64_one : binary64.round 1 = .fin 1 :=
  round_eval_pos binary64 1 1 0 4503599627370496 (by norm_num) (by norm_num)
    (by norm_num) (by norm_num [binary64]) (by norm_num [binary64])
    (by norm_num [binary64]) (by norm_num [binary64]) (by norm_num)

theorem round64_two : binary64.round 2 = .fin 2 :=
  round_eval_pos binary64 2 2 1 4503599627370496 (by norm_num) (by norm_num)
    (by norm_num) (by norm_num [binary64]) (by norm_num [binary64])
    (by norm_num [binary64]) (by norm_num [binary64]) (by norm_num)

theorem round64_four : binary64.round 4 = .fin 4 :=
  round_eval_pos binary64 4 4 2 4503599627370496 (by norm_num) (by norm_num)
    (by norm_num) (by norm_num [binary64]) (by norm_num [binary64])
    (by norm_num [binary64]) (by norm_num [binary64]) (by norm_num)

theorem round64_half : binary64.round (1 / 2) = .fin (1 / 2) :=
  round_eval_pos binary64 (1 / 2) (1 / 2) (-1) 4503599627370496 (by norm_num)
    (by norm_num) (by norm_num) (by norm_num [binary64]) (by norm_num [binary64])
    (by norm_num [binary64]) (by norm_num [binary64]) (by norm_num)

/-- The literal `1.0e-6f` is `8796093 / 2 ^ 43`. -/
theorem oneMillionthF_eq : oneMillionthF = .fin (8796093 / 8796093022208) :=
  round_eval_pos binary32 (1 / 1000000) (8796093 / 8796093022208) (-20) 8796093
    (by norm_num) (by norm_num) (by norm_num) (by norm_num [binary32])
    (by norm_num [binary32]) (by norm_num [binary32]) (by norm_num [binary32])
    (by norm_num)

/-- In `float`, `500000 * 1.0e-6f` is `0.5`. -/
theorem round32_half_second :
    binary32.round (500000 * (8796093 / 8796093022208)) = .fin (1 / 2) :=
  round_eval_pos binary32 (500000 * (8796093 / 8796093022208)) (1 / 2) (-2) 16777216
    (by norm_num) (by norm_num) (by norm_num) (by norm_num [binary32])
    (by norm_num [binary32]) (by norm_num [binary32]) (by norm_num [binary32])
    (by norm_num)

/-- In `float`, `2 ^ 70 * 2 ^ 70` overflows. -/
theorem round32_overflow : binary32.round (2 ^ 70 * 2 ^ 70) = .inf false := by
  have hx : (0 : ℚ) < 2 ^ 70 * 2 ^ 70 := by positivity
  rw [round_eval binary32 (2 ^ 70 * 2 ^ 70) (2 ^ 140) 140 8388608
    (by rw [abs_of_pos hx]; exact hx) (by rw [abs_of_pos hx]; norm_num)
    (by rw [abs_of_pos hx]; norm_num)
    (by rw [abs_lt]; constructor <;> norm_num [binary32])
    (by norm_num [binary32]),
    if_pos (by rw [abs_of_pos (by positivity)]; norm_num [binary32])]
  simp

theorem sqrtApprox_four : sqrtApprox 4 = 2 := by
  have hlog : Int.log 2 (4 : ℚ) = 2 := by
    apply le_antisymm
    · have := (Int.lt_zpow_iff_log_lt (b := 2) (by norm_num) (by norm_num : (0 : ℚ) < 4)
        (x := 3)).mp (by norm_num)
      omega
    · exact (Int.zpow_le_iff_le_log (b := 2) (by norm_num) (by norm_num : (0 : ℚ) < 4)).mp
        (by norm_num)
  have hfloor : ⌊(340282366920938463463374607431768211456 : ℚ)⌋₊
      = 18446744073709551616 * 18446744073709551616 := by
    rw [show (340282366920938463463374607431768211456 : ℚ)
      = ((340282366920938463463374607431768211456 : ℕ) : ℚ) by norm_num, Nat.floor_natCast]
  unfold sqrtApprox
  simp only [hlog]
  norm_num only [show (64 : ℤ) - 2 / 2 = 63 by norm_num]
  rw [hfloor, Nat.sqrt_eq]
  norm_num

theorem sqrt_four : FP.sqrt (.fin 4) = .fin 2 := by
  simp [FP.sqrt, sqrtApprox_four, round64_two]

/-! ## The rotation written by `set` -/

/-- The rotation computed from a quaternion with components up to `2 ^ 60`, one
of them at least `2 ^ -60`: all four components are finite, each within
`2 ^ -20` of the exact normalised component, and their Euclidean norm is within
`10 ^ -5` of 1. -/
theorem rotation_spec (fmt : Format) (hfmt : fmt = binary32 ∨ fmt = binary64)
    (q : Fin 4 → ℚ) (hmax : ∀ i, |q i| ≤ 2 ^ 60) (hmin : ∃ j, 1 / 2 ^ 60 ≤ |q j|) :
    ∃ r : Fin 4 → ℚ,
      (∀ i, FP.convert binary32 (FP.mul binary64 (.fin (q i))
          (FP.div binary64 (.fin 1) (FP.sqrt (sumSquares fmt fun i => .fin (q i)))))
        = .fin (r i)) ∧
      (∀ i, |(r i : ℝ) - q i / Real.sqrt ((q 0 : ℝ) ^ 2 + (q 1 : ℝ) ^ 2 + (q 2 : ℝ) ^ 2
          + (q 3 : ℝ) ^ 2)| ≤ 1 / 2 ^ 20) ∧
      |Real.sqrt ((r 0 : ℝ) ^ 2 + (r 1 : ℝ) ^ 2 + (r 2 : ℝ) ^ 2 + (r 3 : ℝ) ^ 2) - 1|
        ≤ 1 / 100000 := by
  have hmaxR : ∀ i, |(q i : ℝ)| ≤ 2 ^ 60 := by
    intro i
    have : ((|q i| : ℚ) : ℝ) ≤ (((2 : ℚ) ^ 60 : ℚ) : ℝ) := by exact_mod_cast hmax i
    push_cast at this
    exact this
  obtain ⟨j, hj⟩ := hmin
  have hjR : 1 / 2 ^ 60 ≤ |(q j : ℝ)| := by
    have : (((1 : ℚ) / 2 ^ 60 : ℚ) : ℝ) ≤ ((|q j| : ℚ) : ℝ) := by exact_mod_cast hj
    push_cast at this
    exact this
  set A : ℝ := (q 0 : ℝ) ^ 2 + (q 1 : ℝ) ^ 2 + (q 2 : ℝ) ^ 2 + (q 3 : ℝ) ^ 2 with hAdef
  obtain ⟨h00, h01⟩ := sq_bounds (q 0 : ℝ) (hmaxR 0)
  obtain ⟨h10, h11⟩ := sq_bounds (q 1 : ℝ) (hmaxR 1)
  obtain ⟨h20, h21⟩ := sq_bounds (q 2 : ℝ) (hmaxR 2)
  obtain ⟨h30, h31⟩ := sq_bounds (q 3 : ℝ) (hmaxR 3)
  have hle : ∀ i, (q i : ℝ) ^ 2 ≤ A := by
    intro i
    fin_cases i <;> simp only [hAdef] <;> simp <;> linarith
  have hA1 : 1 / 2 ^ 120 ≤ A := le_trans (sq_lower _ hjR) (hle j)
  have hA2 : A ≤ 2 ^ 122 := by
    have : (2 : ℝ) ^ 122 = 4 * 2 ^ 120 := by norm_num
    rw [this]; linarith
  obtain ⟨S, hS, hS1, hS2⟩ := sumSquares_spec fmt hfmt q hmaxR hA1
  obtain ⟨c, hc, hc1, hc2⟩ := scale_spec S A hA1 hA2 hS1 hS2
  obtain ⟨hN0, hN2, -, -, -, -, -⟩ := sqrt_range A hA1 hA2
  choose r hr hrerr using fun i => component_spec (q i) c A hA1 hA2 (hle i) hc1 hc2
  refine ⟨r, ?_, hrerr, ?_⟩
  · intro i
    rw [hS, hc]
    exact hr i
  · apply norm_near_one (fun i => (r i : ℝ)) (fun i => (q i : ℝ) / Real.sqrt A) _ hrerr
    simp only [div_pow, hN2]
    rw [← add_div, ← add_div, ← add_div]
    exact div_self (by linarith [show (0 : ℝ) < 1 / 2 ^ 120 by positivity])

theorem quat_vec (q : Fin 4 → ℚ) :
    (![.fin (q 0), .fin (q 1), .fin (q 2), .fin (q 3)] : Fin 4 → FP) = fun i => .fin (q i) := by
  funext i
  fin_cases i <;> rfl

/-- C1, as amended: for every quaternion with finite components of magnitude at
most `2 ^ 60`, one of them at least `2 ^ -60`, the rotation written by either
overload of `TrackerData::set` has finite components whose Euclidean norm is
within `1e-5` of 1. -/
theorem set_rotation_unit_norm (self : TrackerData) (tracker : TrackerCB)
    (pX pY pZ : FP) (tStamp : Nat) (sensorID : Int) (q : Fin 4 → ℚ)
    (hq : ∀ i, tracker.quat i = .fin (q i))
    (hmax : ∀ i, |q i| ≤ 2 ^ 60) (hmin : ∃ j, 1 / 2 ^ 60 ≤ |q j|) :
    (∃ r : Fin 4 → ℚ,
      (∀ i, (self.set tracker).rotation i = .fin (r i)) ∧
      |Real.sqrt ((r 0 : ℝ) ^ 2 + (r 1 : ℝ) ^ 2 + (r 2 : ℝ) ^ 2 + (r 3 : ℝ) ^ 2) - 1|
        ≤ 1 / 100000) ∧
    (∃ r : Fin 4 → ℚ,
      (∀ i, (self.setValues pX pY pZ (.fin (q 0)) (.fin (q 1)) (.fin (q 2)) (.fin (q 3))
        tStamp sensorID).rotation i = .fin (r i)) ∧
      |Real.sqrt ((r 0 : ℝ) ^ 2 + (r 1 : ℝ) ^ 2 + (r 2 : ℝ) ^ 2 + (r 3 : ℝ) ^ 2) - 1|
        ≤ 1 / 100000) := by
  have hq' : tracker.quat = fun i => .fin (q i) := funext hq
  constructor
  · obtain ⟨r, hr, -, hn⟩ := rotation_spec binary64 (Or.inr rfl) q hmax hmin
    refine ⟨r, fun i => ?_, hn⟩
    simp only [TrackerData.set, hq']
    exact hr i
  · obtain ⟨r, hr, -, hn⟩ := rotation_spec binary32 (Or.inl rfl) q hmax hmin
    refine ⟨r, fun i => ?_, hn⟩
    simp only [TrackerData.setValues, quat_vec]
    exact hr i

/-- C1, at the quaternion `[0,0,0,2]` of the sample report. -/
theorem set_rotation_unit_norm_witness :
    (∀ i, sampleReport.quat i = .fin ((![0, 0, 0, 2] : Fin 4 → ℚ) i)) ∧
    (∀ i, |(![0, 0, 0, 2] : Fin 4 → ℚ) i| ≤ 2 ^ 60) ∧
    (∃ j, 1 / 2 ^ 60 ≤ |(![0, 0, 0, 2] : Fin 4 → ℚ) j|) ∧
    (∃ r : Fin 4 → ℚ,
      (∀ i, (TrackerData.new.set sampleReport).rotation i = .fin (r i)) ∧
      |Real.sqrt ((r 0 : ℝ) ^ 2 + (r 1 : ℝ) ^ 2 + (r 2 : ℝ) ^ 2 + (r 3 : ℝ) ^ 2) - 1|
        ≤ 1 / 100000) :=
  have h1 : ∀ i, sampleReport.quat i = .fin ((![0, 0, 0, 2] : Fin 4 → ℚ) i) := by
    intro i; fin_cases i <;> rfl
  have h2 : ∀ i, |(![0, 0, 0, 2] : Fin 4 → ℚ) i| ≤ 2 ^ 60 := by
    intro i; fin_cases i <;> norm_num
  have h3 : ∃ j, 1 / 2 ^ 60 ≤ |(![0, 0, 0, 2] : Fin 4 → ℚ) j| := ⟨3, by simp; norm_num⟩
  ⟨h1, h2, h3,
    (set_rotation_unit_norm TrackerData.new sampleReport (.fin 0) (.fin 0) (.fin 0) 0 0
      ![0, 0, 0, 2] h1 h2 h3).1⟩

theorem sumSquares_unfold (fmt : Format) (quat : Fin 4 → FP) :
    sumSquares fmt quat =
      FP.add binary64 (FP.add binary64 (FP.add binary64 (FP.add binary64 (.fin 0)
        (FP.mul fmt (quat 0) (quat 0))) (FP.mul fmt (quat 1) (quat 1)))
        (FP.mul fmt (quat 2) (quat 2))) (FP.mul fmt (quat 3) (quat 3)) := rfl

theorem mul_fin (fmt : Format) (a b : ℚ) :
    FP.mul fmt (.fin a) (.fin b) = fmt.round (a * b) := rfl

theorem add_fin (fmt : Format) (a b : ℚ) :
    FP.add fmt (.fin a) (.fin b) = fmt.round (a + b) := rfl

theorem convert_fin (fmt : Format) (a : ℚ) : FP.convert fmt (.fin a) = fmt.round a := rfl

theorem sumSquares_overflow :
    sumSquares binary32 ![.fin (2 ^ 70), .fin 0, .fin 0, .fin 0] = .inf false := by
  rw [sumSquares_unfold]
  have e0 : (![.fin (2 ^ 70), .fin 0, .fin 0, .fin 0] : Fin 4 → FP) 0 = .fin (2 ^ 70) := rfl
  have e1 : (![.fin (2 ^ 70), .fin 0, .fin 0, .fin 0] : Fin 4 → FP) 1 = .fin 0 := rfl
  have e2 : (![.fin (2 ^ 70), .fin 0, .fin 0, .fin 0] : Fin 4 → FP) 2 = .fin 0 := rfl
  have e3 : (![.fin (2 ^ 70), .fin 0, .fin 0, .fin 0] : Fin 4 → FP) 3 = .fin 0 := rfl
  rw [e0, e1, e2, e3]
  simp only [mul_fin, round32_overflow, mul_zero, round_zero]
  rfl

theorem setValues_rotation (self : TrackerData) (pX pY pZ q0 q1 q2 q3 : FP) (tStamp : Nat)
    (sensorID : Int) (i : Fin 4) :
    (self.setValues pX pY pZ q0 q1 q2 q3 tStamp sensorID).rotation i =
      FP.convert binary32 (FP.mul binary64 ((![q0, q1, q2, q3] : Fin 4 → FP) i)
        (FP.div binary64 (.fin 1) (FP.sqrt (sumSquares binary32 ![q0, q1, q2, q3])))) := rfl

theorem scale_overflow :
    FP.div binary64 (.fin 1)
      (FP.sqrt (sumSquares binary32 ![.fin (2 ^ 70), .fin 0, .fin 0, .fin 0])) = .fin 0 := by
  rw [sumSquares_overflow]
  rfl

/-- C1 as stated fails: for the quaternion `[2^70, 0, 0, 0]` of `float`s the
squares overflow and the rotation written is `[0, 0, 0, 0]`, of norm 0. -/
theorem set_rotation_overflow :
    (TrackerData.new.setValues (.fin 0) (.fin 0) (.fin 0) (.fin (2 ^ 70)) (.fin 0) (.fin 0)
      (.fin 0) 0 0).rotation 0 = .fin 0 ∧
    (TrackerData.new.setValues (.fin 0) (.fin 0) (.fin 0) (.fin (2 ^ 70)) (.fin 0) (.fin 0)
      (.fin 0) 0 0).rotation 1 = .fin 0 ∧
    (TrackerData.new.setValues (.fin 0) (.fin 0) (.fin 0) (.fin (2 ^ 70)) (.fin 0) (.fin 0)
      (.fin 0) 0 0).rotation 2 = .fin 0 ∧
    (TrackerData.new.setValues (.fin 0) (.fin 0) (.fin 0) (.fin (2 ^ 70)) (.fin 0) (.fin 0)
      (.fin 0) 0 0).rotation 3 = .fin 0 ∧
    Real.sqrt ((0 : ℝ) ^ 2 + 0 ^ 2 + 0 ^ 2 + 0 ^ 2) ≠ 1 := by
  have e0 : (![.fin (2 ^ 70), .fin 0, .fin 0, .fin 0] : Fin 4 → FP) 0 = .fin (2 ^ 70) := rfl
  have e1 : (![.fin (2 ^ 70), .fin 0, .fin 0, .fin 0] : Fin 4 → FP) 1 = .fin 0 := rfl
  have e2 : (![.fin (2 ^ 70), .fin 0, .fin 0, .fin 0] : Fin 4 → FP) 2 = .fin 0 := rfl
  have e3 : (![.fin (2 ^ 70), .fin 0, .fin 0, .fin 0] : Fin 4 → FP) 3 = .fin 0 := rfl
  refine ⟨?_, ?_, ?_, ?_, by simp⟩
  · rw [setValues_rotation, scale_overflow, e0, mul_fin, mul_zero, round_zero, convert_fin,
      round_zero]
  · rw [setValues_rotation, scale_overflow, e1, mul_fin, mul_zero, round_zero, convert_fin,
      round_zero]
  · rw [setValues_rotation, scale_overflow, e2, mul_fin, mul_zero, round_zero, convert_fin,
      round_zero]
  · rw [setValues_rotation, scale_overflow, e3, mul_fin, mul_zero, round_zero, convert_fin,
      round_zero]

/-! ## The record built from a tracker report -/

theorem div_fin (fmt : Format) (a b : ℚ) (hb : b ≠ 0) :
    FP.div fmt (.fin a) (.fin b) = fmt.round (a / b) := by
  simp [FP.div, hb]

theorem longToFloat_one : longToFloat 1 = .fin 1 := by
  unfold longToFloat
  rw [Int.cast_one, round32_one]

theorem longToFloat_500000 : longToFloat 500000 = .fin 500000 := by
  unfold longToFloat
  rw [show ((500000 : ℤ) : ℚ) = 500000 by norm_num, round32_500000]

theorem ulongToFloat_1500000 : ulongToFloat 1500000 = .fin 1500000 := by
  unfold ulongToFloat
  rw [show ((1500000 : ℕ) : ℚ) = 1500000 by norm_num, round32_1500000]

/-- In `float`, `(float)500000 * 1.0e-6f` is `0.5`. -/
theorem half_second :
    FP.mul binary32 (longToFloat 500000) oneMillionthF = .fin (1 / 2) := by
  rw [longToFloat_500000, oneMillionthF_eq, mul_fin, round32_half_second]

/-- The time stamp of a report at 1.5 s is exactly `1.5`. -/
theorem timeStamp_sample :
    FP.add binary32 (longToFloat 1) (FP.mul binary32 (longToFloat 500000) oneMillionthF)
      = .fin (3 / 2) := by
  rw [half_second, longToFloat_one, add_fin, show (1 : ℚ) + 1 / 2 = 3 / 2 by norm_num,
    round32_three_halves]

/-- The sum of squares of the quaternion `[0,0,0,2]` is `4`, in either
format. -/
theorem sumSquares_sample (fmt : Format) (h4 : fmt.round 4 = .fin 4) :
    sumSquares fmt ![.fin 0, .fin 0, .fin 0, .fin 2] = .fin 4 := by
  rw [sumSquares_unfold]
  have e0 : (![.fin 0, .fin 0, .fin 0, .fin 2] : Fin 4 → FP) 0 = .fin 0 := rfl
  have e1 : (![.fin 0, .fin 0, .fin 0, .fin 2] : Fin 4 → FP) 1 = .fin 0 := rfl
  have e2 : (![.fin 0, .fin 0, .fin 0, .fin 2] : Fin 4 → FP) 2 = .fin 0 := rfl
  have e3 : (![.fin 0, .fin 0, .fin 0, .fin 2] : Fin 4 → FP) 3 = .fin 2 := rfl
  rw [e0, e1, e2, e3]
  simp only [mul_fin, add_fin, mul_zero, add_zero, round_zero]
  rw [show (2 : ℚ) * 2 = 4 by norm_num, h4, add_fin, zero_add, round64_four]

/-- The scale factor for the quaternion `[0,0,0,2]` is `0.5`. -/
theorem scale_sample (fmt : Format) (h4 : fmt.round 4 = .fin 4) :
    FP.div binary64 (.fin 1) (FP.sqrt (sumSquares fmt ![.fin 0, .fin 0, .fin 0, .fin 2]))
      = .fin (1 / 2) := by
  rw [sumSquares_sample fmt h4, sqrt_four, div_fin _ _ _ (by norm_num), round64_half]

/-- The rotation computed from the quaternion `[0,0,0,2]` is `[0,0,0,1]`. -/
theorem rotation_sample (fmt : Format) (h4 : fmt.round 4 = .fin 4) :
    (fun i => FP.convert binary32 (FP.mul binary64
      ((![.fin 0, .fin 0, .fin 0, .fin 2] : Fin 4 → FP) i)
      (FP.div binary64 (.fin 1)
        (FP.sqrt (sumSquares fmt ![.fin 0, .fin 0, .fin 0, .fin 2])))))
      = ![.fin 0, .fin 0, .fin 0, .fin 1] := by
  rw [scale_sample fmt h4]
  have z : FP.convert binary32 (FP.mul binary64 (.fin 0) (.fin (1 / 2))) = .fin 0 := by
    rw [mul_fin, zero_mul, round_zero, convert_fin, round_zero]
  have o : FP.convert binary32 (FP.mul binary64 (.fin 2) (.fin (1 / 2))) = .fin 1 := by
    rw [mul_fin, show (2 : ℚ) * (1 / 2) = 1 by norm_num, round64_one, convert_fin,
      round32_one]
  funext i
  fin_cases i
  · exact z
  · exact z
  · exact z
  · exact o

theorem sizeof_eq (data : TrackerData) : data.sizeof = 36 := rfl

theorem delivered_cons (c : WriteCall) (calls : List WriteCall) :
    delivered (c :: calls)
      = (if c.result ≠ SOCKET_ERROR then c.result else 0) + delivered calls := by
  unfold delivered
  by_cases h : c.result = SOCKET_ERROR <;> simp [List.filter_cons, h]

/-- The retry loop under an admissible socket write: it returns, the same
value for every sufficient fuel, and its calls are chained. -/
theorem sendLoop_spec (write : SocketWrite) (hw : Admissible write) (sock : Nat) :
    ∀ (N : Nat) (k : Nat) (ptr numRemain : Int), 0 < numRemain → numRemain ≤ N →
      ∃ r calls,
        (∀ fuel : Nat, numRemain ≤ fuel →
          sendLoop write sock fuel k ptr numRemain = some (r, calls)) ∧
        Chained write k ptr numRemain calls ∧
        (∀ c ∈ calls, c.sock = sock) ∧
        r = numRemain - delivered calls ∧ 0 ≤ r ∧ r ≤ numRemain ∧
        (r = 0 ↔ ∀ c ∈ calls, c.result ≠ SOCKET_ERROR) ∧
        (∀ c ∈ calls.dropLast, c.result ≠ SOCKET_ERROR) := by
  intro N
  induction N with
  | zero => intro k ptr numRemain h0 h1; exact absurd h1 (by simpa using h0)
  | succ N ih =>
    intro k ptr numRemain h0 h1
    have hfuel : ∀ fuel : Nat, numRemain ≤ fuel → ∃ f : Nat, fuel = f + 1 ∧ numRemain - 1 ≤ f := by
      intro fuel hf
      cases fuel with
      | zero => exact absurd hf (by simpa using h0)
      | succ f => exact ⟨f, rfl, by push_cast at hf; omega⟩
    rcases hw k sock ptr numRemain h0 with herr | ⟨hlo, hhi⟩
    · -- the write fails
      refine ⟨numRemain, [⟨sock, ptr, numRemain, write k sock ptr numRemain⟩], ?_, ?_, ?_, ?_,
        ?_, ?_, ?_, ?_⟩
      · intro fuel hf
        obtain ⟨f, rfl, -⟩ := hfuel fuel hf
        simp [sendLoop, herr]
      · simp [Chained, h0]
      · simp
      · simp [delivered_cons, herr, delivered]
      · omega
      · omega
      · constructor
        · intro h; omega
        · intro h; exact absurd herr (h _ (List.mem_singleton.mpr rfl))
      · simp
    · have hne : write k sock ptr numRemain ≠ SOCKET_ERROR := by
        unfold SOCKET_ERROR; omega
      by_cases hrem : numRemain - write k sock ptr numRemain > 0
      · -- a partial write: the loop goes round again
        obtain ⟨r, calls, hrun, hch, hsock, hr, hr0, hr1, hiff, hlast⟩ :=
          ih (k + 1) (ptr + write k sock ptr numRemain)
            (numRemain - write k sock ptr numRemain) hrem (by push_cast at h1; omega)
        have hcalls : calls ≠ [] := by
          intro hnil
          subst hnil
          simp [delivered] at hr
          simp at hiff
          omega
        refine ⟨r, ⟨sock, ptr, numRemain, write k sock ptr numRemain⟩ :: calls, ?_, ?_, ?_,
          ?_, ?_, ?_, ?_, ?_⟩
        · intro fuel hf
          obtain ⟨f, rfl, hf'⟩ := hfuel fuel hf
          have := hrun f (by omega)
          simp [sendLoop, hne, hrem, this]
        · exact ⟨rfl, rfl, h0, rfl, hch⟩
        · intro c hc
          rcases List.mem_cons.mp hc with rfl | hc
          · rfl
          · exact hsock c hc
        · rw [delivered_cons]; simp [hne]; omega
        · exact hr0
        · omega
        · rw [hiff]
          constructor
          · intro h c hc
            rcases List.mem_cons.mp hc with rfl | hc
            · exact hne
            · exact h c hc
          · intro h c hc; exact h c (List.mem_cons_of_mem _ hc)
        · intro c hc
          rw [List.dropLast_cons_of_ne_nil hcalls] at hc
          rcases List.mem_cons.mp hc with rfl | hc
          · exact hne
          · exact hlast c hc
      · -- the last bytes were written
        have hz : numRemain - write k sock ptr numRemain = 0 := by omega
        refine ⟨0, [⟨sock, ptr, numRemain, write k sock ptr numRemain⟩], ?_, ?_, ?_, ?_,
          ?_, ?_, ?_, ?_⟩
        · intro fuel hf
          obtain ⟨f, rfl, -⟩ := hfuel fuel hf
          simp [sendLoop, hne, hz]
        · simp [Chained, h0]
        · simp
        · simp [delivered_cons, hne, delivered]; omega
        · omega
        · omega
        · simp [hne]
        · simp

/-- Whenever the retry loop returns, its first call is the one it was started
with. -/
theorem sendLoop_head (write : SocketWrite) (sock : Nat) (fuel k : Nat)
    (ptr numRemain r : Int) (calls : List WriteCall)
    (h : sendLoop write sock fuel k ptr numRemain = some (r, calls)) :
    ∃ rest, calls = ⟨sock, ptr, numRemain, write k sock ptr numRemain⟩ :: rest := by
  cases fuel with
  | zero => simp [sendLoop] at h
  | succ f =>
    simp only [sendLoop] at h
    by_cases herr : write k sock ptr numRemain = SOCKET_ERROR
    · simp [herr] at h
      exact ⟨[], by rw [← h.2, herr]⟩
    · by_cases hrem : numRemain - write k sock ptr numRemain > 0
      · cases hrec : sendLoop write sock f (k + 1) (ptr + write k sock ptr numRemain)
            (numRemain - write k sock ptr numRemain) with
        | none => simp [herr, hrem, hrec] at h
        | some rc =>
          simp [herr, hrem, hrec] at h
          exact ⟨rc.2, h.2.symm⟩
      · simp [herr, hrem] at h
        exact ⟨[], h.2.symm⟩

/-- C3, as amended: for every record, the number of bytes `Server::send(record)`
asks to write, the packed size of one `float`, one `int`, three `float` and
four `float`, is 36; whenever the call returns with a client connected, its
first socket write starts at the record's first byte and asks for 36 bytes. -/
theorem send_asks_sizeof (write : SocketWrite) (fuel : Nat) (s : Server)
    (data : TrackerData) (ok : Bool) (s' : Server) (calls : List WriteCall)
    (hs : s.m_socket ≠ 0) (h : s.send write fuel data = some (ok, s', calls)) :
    data.sizeof = 36 ∧
      ∃ c rest, calls = c :: rest ∧ c.sock = s.m_socket ∧ c.offset = 0 ∧ c.count = 36 := by
  refine ⟨rfl, ?_⟩
  have h36 : toInt32 36 = 36 := by decide
  unfold Server.send at h
  rw [if_pos hs] at h
  simp only [Server.sendSock, sizeof_eq, h36] at h
  cases hloop : sendLoop write s.m_socket fuel 0 0 36 with
  | none => simp [hloop] at h
  | some rc =>
    obtain ⟨r, cs⟩ := rc
    obtain ⟨rest, hrest⟩ := sendLoop_head write s.m_socket fuel 0 0 36 r cs hloop
    simp only [hloop, Nat.cast_ofNat, Option.some.injEq, Prod.mk.injEq] at h
    obtain ⟨-, -, rfl⟩ := h
    exact ⟨_, rest, hrest, rfl, rfl, rfl⟩

/-- C3, at the default record, a connected server and a socket that takes all
bytes at once. -/
theorem send_asks_sizeof_witness :
    connectedServer.m_socket ≠ 0 ∧
    TrackerData.new.sizeof = 36 ∧
      ∃ c rest, [(⟨7, 0, 36, 36⟩ : WriteCall)] = c :: rest ∧
        c.sock = connectedServer.m_socket ∧ c.offset = 0 ∧ c.count = 36 :=
  ⟨by decide,
    send_asks_sizeof writeAll 1 connectedServer TrackerData.new true
      connectedServer [⟨7, 0, 36, 36⟩] (by decide) (by rfl)⟩

/-- C3 as stated fails: the default record sent over a connected socket asks
for 36 bytes, not 32. -/
theorem send_size_not_32 :
    TrackerData.new.sizeof ≠ 32 ∧
    (Server.send writeAll 1 connectedServer TrackerData.new).map
        (fun r => r.2.2.map fun c => c.count) = some [36] := by
  constructor
  · decide
  · rfl

/-- C4: with no client connected (`m_socket == 0`), as in a freshly constructed
server, `Server::send(record)` returns false, makes no socket write and leaves
every field of the server unchanged. -/
theorem send_not_connected (write : SocketWrite) (fuel : Nat) (s : Server)
    (data : TrackerData) (hs : s.m_socket = 0) :
    s.send write fuel data = some (false, s, []) ∧
    Server.new.send write fuel data = some (false, Server.new, []) := by
  constructor
  · simp [Server.send, hs]
  · simp [Server.send, Server.new]

/-- C4, at a running server that no client has reached yet. -/
theorem send_not_connected_witness :
    (⟨true, 3, 0, false⟩ : Server).m_socket = 0 ∧
    (⟨true, 3, 0, false⟩ : Server).send writeAll 0 TrackerData.new
      = some (false, ⟨true, 3, 0, false⟩, []) :=
  ⟨rfl, (send_not_connected writeAll 0 ⟨true, 3, 0, false⟩ TrackerData.new rfl).1⟩

/-- C5: with a client connected and a socket write that, asked for `n > 0`
bytes, fails or writes between 1 and `n` of them, `Server::send(record)`
returns (the same value for every fuel of at least the record's size).  Its
socket writes are numbered from 0; each starts at the first unsent byte, asks
for the remaining bytes, at least one, and has as result what the socket write
returned for it.  The value is true exactly when the byte counts add up to the
record's size, which is exactly when no write failed; it is false exactly when
the last write failed; and no write before the last one failed. -/
theorem send_connected (write : SocketWrite) (s : Server)
    (data : TrackerData) (hw : Admissible write) (hs : s.m_socket ≠ 0) :
    ∃ ok calls,
      (∀ fuel, data.sizeof ≤ fuel → s.send write fuel data = some (ok, s, calls)) ∧
      Chained write 0 0 data.sizeof calls ∧
      (∀ c ∈ calls, c.sock = s.m_socket) ∧
      (ok = true ↔ delivered calls = data.sizeof) ∧
      (ok = true ↔ ∀ c ∈ calls, c.result ≠ SOCKET_ERROR) ∧
      (ok = false ↔ ∃ c, calls.getLast? = some c ∧ c.result = SOCKET_ERROR) ∧
      (∀ c ∈ calls.dropLast, c.result ≠ SOCKET_ERROR) := by
  have h36 : toInt32 36 = 36 := by decide
  obtain ⟨r, calls, hrun, hch, hsock, hr, hr0, hr1, hiff, hlast⟩ :=
    sendLoop_spec write hw s.m_socket 36 0 0 36 (by norm_num) (by norm_num)
  have hok : ((((36 : Int) - r) % 4294967296).toNat == 36) = true ↔ r = 0 := by
    rw [beq_iff_eq]
    omega
  refine ⟨(((36 : Int) - r) % 4294967296).toNat == 36, calls, ?_, ?_, hsock, ?_, ?_, ?_,
    hlast⟩
  · intro fuel hf
    rw [sizeof_eq] at hf
    unfold Server.send
    rw [if_pos hs]
    simp only [Server.sendSock, sizeof_eq, h36]
    rw [hrun fuel (by exact_mod_cast hf)]
    rfl
  · rw [sizeof_eq]; exact hch
  · rw [hok, sizeof_eq]; push_cast; omega
  · rw [hok]; exact hiff
  · rw [Bool.eq_false_iff, Ne, hok, hiff]
    constructor
    · intro h
      push_neg at h
      obtain ⟨c, hc, hce⟩ := h
      have hne : calls ≠ [] := List.ne_nil_of_mem hc
      refine ⟨calls.getLast hne, List.getLast?_eq_getLast _ hne, ?_⟩
      by_contra hl
      have hsplit := List.dropLast_append_getLast hne
      rw [← hsplit] at hc
      rcases List.mem_append.mp hc with h1 | h1
      · exact hlast c h1 hce
      · rw [List.mem_singleton] at h1
        rw [h1] at hce
        exact hl hce
    · rintro ⟨c, hc, hce⟩ h
      exact h c (List.mem_of_getLast?_eq_some hc) hce

/-- C5, at a socket that takes 20 bytes and then the remaining 16. -/
theorem send_connected_witness :
    Admissible writeUpTo20 ∧ connectedServer.m_socket ≠ 0 ∧
    ∃ ok calls,
      (∀ fuel, TrackerData.new.sizeof ≤ fuel →
        connectedServer.send writeUpTo20 fuel TrackerData.new
          = some (ok, connectedServer, calls)) ∧
      Chained writeUpTo20 0 0 TrackerData.new.sizeof calls ∧
      (∀ c ∈ calls, c.sock = connectedServer.m_socket) ∧
      (ok = true ↔ delivered calls = TrackerData.new.sizeof) ∧
      (ok = true ↔ ∀ c ∈ calls, c.result ≠ SOCKET_ERROR) ∧
      (ok = false ↔ ∃ c, calls.getLast? = some c ∧ c.result = SOCKET_ERROR) ∧
      (∀ c ∈ calls.dropLast, c.result ≠ SOCKET_ERROR) :=
  have hadm : Admissible writeUpTo20 := by
    intro k sock offset n hn
    right
    unfold writeUpTo20
    split <;> omega
  ⟨hadm, by decide, send_connected writeUpTo20 connectedServer TrackerData.new hadm (by decide)⟩

/-! ## The freshness check -/

theorem usecStamp_of_nat (now : Timeval) (t : Nat)
    (h : now.tv_usec + 1000000 * now.tv_sec = (t : Int)) :
    usecStamp now = t % 4294967296 := by
  unfold usecStamp
  rw [h]
  omega

theorem ulongSub_mod (t0 t1 : Nat) (h01 : t0 ≤ t1) (hlt : t1 - t0 < 4294967296) :
    ulongSub (t1 % 4294967296) (t0 % 4294967296) = t1 - t0 := by
  unfold ulongSub
  omega

theorem ulongSub_self (t : Nat) : ulongSub t t = 0 := by
  unfold ulongSub
  omega

/-- The stale branch of the main loop at time `T0 + 10001` with threshold 10000
and no tracker report: the globals afterwards and the record handed over. -/
theorem mainLoopBody_stale (T0 : Nat) (now : Timeval) (g : Globals)
    (hT : g.tStamp = T0 % 4294967296)
    (hnow : now.tv_usec + 1000000 * now.tv_sec = (T0 : Int) + 10001) :
    usecStamp now = (T0 + 10001) % 4294967296 ∧
    mainLoopBody 10000 [] now g
      = ({ g with tStamp := (T0 + 10001) % 4294967296 },
         [TrackerData.new.setValues g.gpX g.gpY g.gpZ g.gq0 g.gq1 g.gq2
            g.gq3 ((T0 + 10001) % 4294967296) 0]) ∧
    (mainLoopBody 10000 [] now (mainLoopBody 10000 [] now g).1).2 = [] := by
  have hstamp : usecStamp now = (T0 + 10001) % 4294967296 :=
    usecStamp_of_nat now (T0 + 10001) (by push_cast; exact hnow)
  have hel : ulongSub (usecStamp now) g.tStamp = 10001 := by
    rw [hstamp, hT, ulongSub_mod T0 (T0 + 10001) (by omega) (by omega)]
    omega
  have hrun : mainLoopBody 10000 [] now g
      = ({ g with tStamp := (T0 + 10001) % 4294967296 },
         [TrackerData.new.setValues g.gpX g.gpY g.gpZ g.gq0 g.gq1 g.gq2
            g.gq3 ((T0 + 10001) % 4294967296) 0]) := by
    rw [hstamp] at hel
    simp [mainLoopBody, stalenessCheck, hel, hstamp]
  refine ⟨hstamp, hrun, ?_⟩
  rw [hrun]
  simp [mainLoopBody, stalenessCheck, hstamp, ulongSub_self]

/-- C6, as amended: with threshold 10000 and no tracker report in between, the
main-loop check at time `T0 + 10001` hands exactly one record to the server,
with sensor id 0 and the last-known position; its rotation is the last-known
quaternion normalised in floating point: for a last-known quaternion with
components up to `2^60`, one of them at least `2^-60`, each component is within
`2^-20` of the last-known component divided by the quaternion's norm.  The
check sets the last-update timestamp to the current time, and the same check
repeated at that time hands over nothing. -/
theorem stale_check_emits (T0 : Nat) (now : Timeval) (g : Globals)
    (hT : g.tStamp = T0 % 4294967296)
    (hnow : now.tv_usec + 1000000 * now.tv_sec = (T0 : Int) + 10001) :
    ∃ data,
      (mainLoopBody 10000 [] now g).2 = [data] ∧
      data.sensor = 0 ∧
      data.position = ![g.gpX, g.gpY, g.gpZ] ∧
      (∀ q : Fin 4 → ℚ, g.gq0 = .fin (q 0) → g.gq1 = .fin (q 1) → g.gq2 = .fin (q 2) →
        g.gq3 = .fin (q 3) → (∀ i, |q i| ≤ 2 ^ 60) → (∃ j, 1 / 2 ^ 60 ≤ |q j|) →
        ∃ r : Fin 4 → ℚ,
          (∀ i, data.rotation i = .fin (r i)) ∧
          (∀ i, |(r i : ℝ) - q i / Real.sqrt ((q 0 : ℝ) ^ 2 + (q 1 : ℝ) ^ 2 + (q 2 : ℝ) ^ 2
            + (q 3 : ℝ) ^ 2)| ≤ 1 / 2 ^ 20)) ∧
      (mainLoopBody 10000 [] now g).1
        = { g with tStamp := (T0 + 10001) % 4294967296 } ∧
      usecStamp now = (T0 + 10001) % 4294967296 ∧
      (mainLoopBody 10000 [] now (mainLoopBody 10000 [] now g).1).2 = [] := by
  obtain ⟨hstamp, hrun, hagain⟩ := mainLoopBody_stale T0 now g hT hnow
  refine ⟨_, by rw [hrun], rfl, rfl, ?_, by rw [hrun], hstamp, hagain⟩
  intro q h0 h1 h2 h3 hmax hmin
  obtain ⟨r, hr, herr, -⟩ := rotation_spec binary32 (Or.inl rfl) q hmax hmin
  refine ⟨r, fun i => ?_, herr⟩
  rw [setValues_rotation, h0, h1, h2, h3, quat_vec]
  exact hr i

theorem afterSample_eq :
    afterSample.tStamp = 0 ∧ afterSample.gq0 = .fin 0 ∧ afterSample.gq1 = .fin 0 ∧
      afterSample.gq2 = .fin 0 ∧ afterSample.gq3 = .fin 2 := by
  refine ⟨rfl, ?_, ?_, ?_, ?_⟩
  · show FP.convert binary32 (.fin 0) = _
    rw [convert_fin, round_zero]
  · show FP.convert binary32 (.fin 0) = _
    rw [convert_fin, round_zero]
  · show FP.convert binary32 (.fin 0) = _
    rw [convert_fin, round_zero]
  · show FP.convert binary32 (.fin 2) = _
    rw [convert_fin, round32_two]

/-- C6, at the globals left by the sample report (last update at 0, last-known
quaternion `[0,0,0,2]`) and the current time 10001 microseconds. -/
theorem stale_check_emits_witness :
    afterSample.tStamp = 0 % 4294967296 ∧
    ((⟨0, 10001⟩ : Timeval).tv_usec + 1000000 * (⟨0, 10001⟩ : Timeval).tv_sec
      = ((0 : Nat) : Int) + 10001) ∧
    ∃ data,
      (mainLoopBody 10000 [] ⟨0, 10001⟩ afterSample).2 = [data] ∧
      data.sensor = 0 ∧
      data.position = ![afterSample.gpX, afterSample.gpY, afterSample.gpZ] ∧
      (∃ r : Fin 4 → ℚ,
          (∀ i, data.rotation i = .fin (r i)) ∧
          (∀ i, |(r i : ℝ) - (![0, 0, 0, 2] : Fin 4 → ℚ) i /
            Real.sqrt ((((![0, 0, 0, 2] : Fin 4 → ℚ) 0 : ℚ) : ℝ) ^ 2
              + (((![0, 0, 0, 2] : Fin 4 → ℚ) 1 : ℚ) : ℝ) ^ 2
              + (((![0, 0, 0, 2] : Fin 4 → ℚ) 2 : ℚ) : ℝ) ^ 2
              + (((![0, 0, 0, 2] : Fin 4 → ℚ) 3 : ℚ) : ℝ) ^ 2)| ≤ 1 / 2 ^ 20)) ∧
      (mainLoopBody 10000 [] ⟨0, 10001⟩
        (mainLoopBody 10000 [] ⟨0, 10001⟩ afterSample).1).2 = [] :=
  have h0 : afterSample.tStamp = 0 % 4294967296 := rfl
  have h1 : (⟨0, 10001⟩ : Timeval).tv_usec + 1000000 * (⟨0, 10001⟩ : Timeval).tv_sec
      = ((0 : Nat) : Int) + 10001 := by decide
  ⟨h0, h1,
    (stale_check_emits 0 ⟨0, 10001⟩ afterSample h0 h1).elim fun data h =>
      ⟨data, h.1, h.2.1, h.2.2.1,
        h.2.2.2.1 ![0, 0, 0, 2] afterSample_eq.2.1 afterSample_eq.2.2.1
          afterSample_eq.2.2.2.1 afterSample_eq.2.2.2.2
          (by intro i; fin_cases i <;> norm_num) ⟨3, by simp; norm_num⟩,
        h.2.2.2.2.2.2⟩⟩

/-- C6 as stated fails: after the sample report with quaternion `[0,0,0,2]`,
the record of the check at 10001 microseconds has rotation `[0,0,0,1]`, which
is not the last-known orientation. -/
theorem stale_rotation_not_last_known :
    ¬ ∃ data,
      (mainLoopBody 10000 [] ⟨0, 10001⟩ afterSample).2 = [data] ∧
      data.rotation = ![afterSample.gq0, afterSample.gq1, afterSample.gq2,
        afterSample.gq3] := by
  rintro ⟨data, hdata, hrot⟩
  obtain ⟨-, hrun, -⟩ := mainLoopBody_stale 0 ⟨0, 10001⟩ afterSample rfl (by decide)
  rw [hrun] at hdata
  have hd : data = TrackerData.new.setValues afterSample.gpX afterSample.gpY afterSample.gpZ
      afterSample.gq0 afterSample.gq1 afterSample.gq2 afterSample.gq3
      ((0 + 10001) % 4294967296) 0 := by
    simpa using hdata.symm
  have h3 : data.rotation 3 = .fin 1 := by
    rw [hd, setValues_rotation, afterSample_eq.2.1, afterSample_eq.2.2.1,
      afterSample_eq.2.2.2.1, afterSample_eq.2.2.2.2]
    exact congrFun (rotation_sample binary32 round32_four) 3
  rw [hrot] at h3
  have h4 : (![afterSample.gq0, afterSample.gq1, afterSample.gq2, afterSample.gq3]
      : Fin 4 → FP) 3 = afterSample.gq3 := rfl
  rw [h4, afterSample_eq.2.2.2.2] at h3
  have : (2 : ℚ) = 1 := by
    injection h3
  norm_num at this

/-- C7: for true microsecond times `t0 ≤ t1` less than `2^32` apart, the
elapsed value `tStamp2 - tStamp` the main loop computes on 32-bit unsigned
operands, with `tStamp = t0 mod 2^32` and `tStamp2 = t1 mod 2^32` formed as
`tv_usec + 1000000 * tv_sec`, equals `t1 - t0`, so the staleness check fires
exactly when `t1 - t0` exceeds the threshold. -/
theorem elapsed_wraparound (t0 t1 : Nat) (tv0 tv1 : Timeval)
    (h01 : t0 ≤ t1) (hlt : t1 - t0 < 4294967296)
    (h0 : tv0.tv_usec + 1000000 * tv0.tv_sec = (t0 : Int))
    (h1 : tv1.tv_usec + 1000000 * tv1.tv_sec = (t1 : Int)) :
    usecStamp tv0 = t0 % 4294967296 ∧ usecStamp tv1 = t1 % 4294967296 ∧
    ulongSub (t1 % 4294967296) (t0 % 4294967296) = t1 - t0 ∧
    ulongSub (usecStamp tv1) (usecStamp tv0) = t1 - t0 ∧
    ∀ (tLimit : Nat) (g : Globals), g.tStamp = usecStamp tv0 →
      ((stalenessCheck tLimit tv1 g).2 ≠ [] ↔ tLimit < t1 - t0) := by
  have e0 := usecStamp_of_nat tv0 t0 h0
  have e1 := usecStamp_of_nat tv1 t1 h1
  have e := ulongSub_mod t0 t1 h01 hlt
  refine ⟨e0, e1, e, by rw [e0, e1, e], ?_⟩
  intro tLimit g hg
  have e2 : ulongSub (usecStamp tv1) g.tStamp = t1 - t0 := by rw [hg, e0, e1, e]
  simp only [stalenessCheck, e2]
  by_cases hl : tLimit < t1 - t0 <;> simp [hl]

/-- C7, at a last update 5 microseconds before the counter wraps and a current
time 10 microseconds after it wrapped: the elapsed time is 15. -/
theorem elapsed_wraparound_witness :
    (4294967291 ≤ 4294967306) ∧ (4294967306 - 4294967291 < 4294967296) ∧
    ulongSub (4294967306 % 4294967296) (4294967291 % 4294967296)
      = 4294967306 - 4294967291 ∧
    ulongSub (usecStamp ⟨4294, 967306⟩) (usecStamp ⟨4294, 967291⟩)
      = 4294967306 - 4294967291 :=
  have h := elapsed_wraparound 4294967291 4294967306 ⟨4294, 967291⟩ ⟨4294, 967306⟩
    (by decide) (by decide) (by decide) (by decide)
  ⟨by decide, by decide, h.2.2.1, h.2.2.2.1⟩

/-! ## The streaming server: start and stop -/

/-- C8: when a first `start()` succeeds, `running` is true afterwards and a
second `start()` returns true, calls nothing and leaves every field unchanged;
starting from a stopped server the two calls together created exactly one
thread. -/
theorem start_twice (s : Server) (handle1 wait1 handle2 wait2 : Nat)
    (hfirst : (s.start handle1 wait1).1 = true) :
    (s.start handle1 wait1).2.1.m_running = true ∧
    (s.start handle1 wait1).2.1.start handle2 wait2
      = (true, (s.start handle1 wait1).2.1, []) ∧
    (s.m_running = false →
      handle1 ≠ 0 ∧ wait1 ≠ WAIT_OBJECT_0 ∧
      (s.start handle1 wait1).2.1
        = { s with m_quit := false, m_thread := handle1, m_running := true } ∧
      threadsCreated ((s.start handle1 wait1).2.2 ++
        ((s.start handle1 wait1).2.1.start handle2 wait2).2.2) = 1) := by
  unfold Server.start Server.isRunning at *
  by_cases hr : s.m_running = true
  · simp [hr]
  · have hr' : s.m_running = false := by simpa using hr
    by_cases hh : handle1 = 0
    · simp [hr', hh] at hfirst
    · by_cases hw : wait1 = WAIT_OBJECT_0
      · simp [hr', hh, hw] at hfirst
      · simp [hr', hh, hw, threadsCreated]

/-- C8, at a freshly constructed server whose thread gets handle 5 and is alive
at the 100 ms check (`WAIT_TIMEOUT`, 258). -/
theorem start_twice_witness :
    (Server.new.start 5 258).1 = true ∧
    (Server.new.start 5 258).2.1.m_running = true ∧
    (Server.new.start 5 258).2.1.start 6 258 = (true, (Server.new.start 5 258).2.1, []) ∧
    threadsCreated ((Server.new.start 5 258).2.2 ++
      ((Server.new.start 5 258).2.1.start 6 258).2.2) = 1 :=
  have h := start_twice Server.new 5 258 6 258 (by decide)
  ⟨by decide, h.1, h.2.1, (h.2.2 (by decide)).2.2.2⟩

/-- C9: `stop()` on a server that is not running changes no field, requests no
quit and waits on nothing; on a running server, whatever the 4 second wait
returns, it requests the quit, waits on the thread and ends with `running`
false, the quit flag cleared and the thread handle cleared; a second `stop()`
is then a no-op. -/
theorem stop_idempotent (s : Server) (waitResult waitResult2 : Nat) :
    (s.m_running = false → s.stop waitResult = (s, [])) ∧
    (s.m_running = true →
      (s.stop waitResult).1
        = { s with m_running := false, m_quit := false, m_thread := 0 } ∧
      (s.stop waitResult).2.take 2 = [Event.quitRequested, Event.wait s.m_thread 4000]) ∧
    (s.stop waitResult).1.m_running = false ∧
    (s.stop waitResult).1.stop waitResult2 = ((s.stop waitResult).1, []) := by
  unfold Server.stop Server.isRunning
  by_cases hr : s.m_running = true
  · by_cases hw : waitResult = WAIT_OBJECT_0 <;> simp [hr, hw]
  · have hr' : s.m_running = false := by simpa using hr
    simp [hr']

/-- C9, at a running server whose thread does not acknowledge within 4 seconds
(`WAIT_TIMEOUT`, 258), and at a stopped one. -/
theorem stop_idempotent_witness :
    connectedServer.m_running = true ∧ Server.new.m_running = false ∧
    Server.new.stop 258 = (Server.new, []) ∧
    (connectedServer.stop 258).1 = ⟨false, 0, 7, false⟩ ∧
    (connectedServer.stop 258).1.stop 0 = ((connectedServer.stop 258).1, []) :=
  ⟨rfl, rfl, (stop_idempotent Server.new 258 0).1 rfl,
    ((stop_idempotent connectedServer 258 0).2.1 rfl).1,
    (stop_idempotent connectedServer 258 0).2.2.2⟩

/-! ## The time stamp of synthetic records -/

/-- C10 fails on the code: the `timeStamp` of a synthetic keep-alive record is
the current microsecond count modulo `2^32` converted to `float`, not a time in
seconds.  At the current time 1.5 s the main loop of a freshly started program
sends `timeStamp = 1500000`, where `set(tracker)` on a report of the same time
sends `1.5`. -/
theorem synthetic_timeStamp_microseconds :
    (∀ (tLimit : Nat) (now : Timeval) (g : Globals),
      ∀ data ∈ (stalenessCheck tLimit now g).2,
        data.timeStamp = ulongToFloat (usecStamp now)) ∧
    (mainLoopBody 10000 [] ⟨1, 500000⟩ Globals.init).2.map
        (fun data => data.timeStamp) = [.fin 1500000] ∧
    (handleTracker ⟨1, 500000⟩ Globals.init sampleReport).2.timeStamp = .fin (3 / 2) := by
  refine ⟨?_, ?_, ?_⟩
  · intro tLimit now g data hdata
    simp only [stalenessCheck] at hdata
    by_cases hl : ulongSub (usecStamp now) g.tStamp > tLimit
    · rw [if_pos hl, List.mem_singleton] at hdata
      rw [hdata]
      rfl
    · rw [if_neg hl] at hdata
      simp at hdata
  · have hs : usecStamp ⟨1, 500000⟩ = 1500000 := by decide
    have he : ulongSub 1500000 4294967295 = 1500001 := by decide
    simp [mainLoopBody, stalenessCheck, hs, he, Globals.init, TrackerData.setValues,
      ulongToFloat_1500000]
  · exact timeStamp_sample

end VrpnBridge
